import Mathlib

/-!
# Verification of the Alpatrader signal aggregation and exit engine

Shallow embedding of the decision logic of the Alpatrader repository:

* `src/src/models/signal_processor.py` (`SignalProcessor`): signal fusion
  hierarchy and FOMC blackout gate;
* `src/src/strategies/exit_strategy_manager.py` (`ExitStrategyManager`):
  stop loss / take profit / time-based / trailing-stop exit rules;
* `src/src/strategies/inverse_strategy.py` (`InverseStrategy`): order
  reconciliation and option overlay sizing;
* `src/src/utils/alpaca_wrapper.py` (`AlpacaWrapper.find_option_contract`).

Modelling conventions:

* Python floats are modelled as `ℚ` (all the arithmetic involved is exact:
  sums, means, comparisons, divisions by 2 or 100).
* Python `dict.get(key, default)` on a possibly missing key is modelled with
  `Option` and `Option.getD`.
* Python `list.sort(key=k, reverse=True)` is a stable descending sort; it is
  modelled by `List.mergeSort` (stable) with the comparison `k b ≤ k a`.
* Python `datetime` values are modelled as integer day numbers in the
  proleptic Gregorian calendar (`daysFromCivil`), with `weekday` matching
  Python's Monday-0 convention.
* Calls into the brokerage / scraper collaborators are supplied as explicit
  environment data; calls that may raise are modelled as `Except Unit`
  results.
* String-valued fields that carry no logic (log texts, the human readable
  `description` of a decision, the `date := datetime.now()` stamp) are
  elided; numeric payloads of exit reasons are kept.
-/

namespace Alpatrader

/-- Direction of a signal record (`'BULLISH' | 'BEARISH' | 'NEUTRAL'`). -/
inductive Direction where
  | bullish
  | bearish
  | neutral
deriving DecidableEq, Repr

/-- Which scraper produced a record (`signal.get('source')`). -/
inductive SigSource where
  | insider
  | congress
  | news
deriving DecidableEq, Repr

/-- A normalized signal record as consumed by
`SignalProcessor._determine_best_signal`.  `confidence = none` models a
record whose `'confidence'` key is missing, so that
`signal.get('confidence', 0)` yields `0`. -/
structure SignalRec where
  ticker : String
  source : SigSource
  signal : Direction
  confidence : Option ℚ
deriving DecidableEq, Repr

/-- `signal.get('confidence', 0)`: a missing confidence is read as `0`. -/
def conf (r : SignalRec) : ℚ := r.confidence.getD 0

/-- The comparison used by `xs.sort(key=lambda x: x.get('confidence', 0),
reverse=True)`: stable descending order on `conf`. -/
def confDesc (a b : SignalRec) : Bool := decide (conf b ≤ conf a)

/-- Trading parameters read from the config by `SignalProcessor.__init__`
(defaults are the `fallback` values in the source). -/
structure TradingConfig where
  strongNewsMultiplier : ℚ := 2
  congressOnlyMultiplier : ℚ := 1
  insiderOnlyMultiplier : ℚ := 1/2
  skipFomcBlackout : Bool := true
deriving Repr

/-- The combined signal built by `SignalProcessor._determine_best_signal`
(the dict fields `ticker`, `signal`, `confidence`, `position_multiplier`,
`sources`, `source_count`; the free-text `description` and the
`date := datetime.now()` stamp carry no decision logic and are elided). -/
structure BestSignal where
  ticker : String
  signal : Direction
  confidence : ℚ
  positionMultiplier : ℚ
  sources : List SignalRec
  sourceCount : ℕ
deriving DecidableEq, Repr

/-- `SignalProcessor._determine_best_signal ticker insider_trades
congress_trades news strong_news` (the `news` argument is passed by the
caller but never read by the Python function; it is kept for fidelity).

Tier 1: if strong news exists and insider or congress records exist, take
the highest-confidence strong news record, then scan the stable
descending-confidence sort of `insider_trades + congress_trades` for the
first record sharing its direction.  Tier 2: best congress record.
Tier 3: best insider record. -/
def determineBestSignal (cfg : TradingConfig) (ticker : String)
    (insiderTrades congressTrades _news strongNews : List SignalRec) :
    Option BestSignal :=
  let tier1 : Option BestSignal :=
    if !strongNews.isEmpty && (!insiderTrades.isEmpty || !congressTrades.isEmpty) then
      match strongNews.mergeSort confDesc with
      | [] => none
      | newsSignal :: _ =>
        let otherSignals := (insiderTrades ++ congressTrades).mergeSort confDesc
        match otherSignals.find? (fun s => decide (s.signal = newsSignal.signal)) with
        | none => none
        | some matchingSignal =>
          some { ticker := ticker
                 signal := newsSignal.signal
                 confidence := (conf newsSignal + conf matchingSignal) / 2
                 positionMultiplier := cfg.strongNewsMultiplier
                 sources := [newsSignal, matchingSignal]
                 sourceCount := 2 }
    else none
  match tier1 with
  | some b => some b
  | none =>
    match congressTrades.mergeSort confDesc with
    | congressSignal :: _ =>
      some { ticker := ticker
             signal := congressSignal.signal
             confidence := conf congressSignal
             positionMultiplier := cfg.congressOnlyMultiplier
             sources := [congressSignal]
             sourceCount := 1 }
    | [] =>
      match insiderTrades.mergeSort confDesc with
      | insiderSignal :: _ =>
        some { ticker := ticker
               signal := insiderSignal.signal
               confidence := conf insiderSignal
               positionMultiplier := cfg.insiderOnlyMultiplier
               sources := [insiderSignal]
               sourceCount := 1 }
      | [] => none

/-- Day number of a proleptic Gregorian date, with day `0` at 1970-01-01
(the standard civil-from-days algorithm; all divisions below act on
non-negative operands for the dates used). -/
def daysFromCivil (y m d : ℤ) : ℤ :=
  let y1 : ℤ := if m ≤ 2 then y - 1 else y
  let era : ℤ := Int.fdiv y1 400
  let yoe : ℤ := y1 - era * 400
  let mp : ℤ := Int.emod (m + 9) 12
  let doy : ℤ := Int.fdiv (153 * mp + 2) 5 + d - 1
  let doe : ℤ := yoe * 365 + Int.fdiv yoe 4 - Int.fdiv yoe 100 + doy
  era * 146097 + doe - 719468

/-- Python's `date.weekday()` (Monday = 0) for a day number:
1970-01-01 (day 0) was a Thursday (weekday 3). -/
def weekday (z : ℤ) : ℤ := Int.emod (z + 3) 7

/-- The hard-coded FOMC meeting dates of
`SignalProcessor._is_fomc_blackout`, as day numbers. -/
def fomcMeetingDays : List ℤ :=
  [daysFromCivil 2023 1 31, daysFromCivil 2023 3 21, daysFromCivil 2023 5 2,
   daysFromCivil 2023 6 13, daysFromCivil 2023 7 25, daysFromCivil 2023 9 19,
   daysFromCivil 2023 10 31, daysFromCivil 2023 12 12, daysFromCivil 2024 1 30,
   daysFromCivil 2024 3 19, daysFromCivil 2024 4 30, daysFromCivil 2024 6 11,
   daysFromCivil 2024 7 30, daysFromCivil 2024 9 17, daysFromCivil 2024 11 6,
   daysFromCivil 2024 12 17, daysFromCivil 2025 1 28, daysFromCivil 2025 3 18,
   daysFromCivil 2025 4 29]

/-- `SignalProcessor._is_fomc_blackout`: true when `now` lies in
`[meeting - 10 days, meeting]` for some meeting date. -/
def isFomcBlackout (now : ℤ) : Bool :=
  fomcMeetingDays.any (fun meetingDay =>
    decide (meetingDay - 10 ≤ now) && decide (now ≤ meetingDay))

/-- The collaborator inputs consumed by `SignalProcessor.process_signals`:
the two scraper fetches, the per-ticker news fetch and the pre-filtered
strong news list. -/
structure SignalEnv where
  insiderTrades : List SignalRec
  congressTrades : List SignalRec
  newsByTicker : String → List SignalRec
  strongNews : List SignalRec

/-- The set of tickers iterated by `process_signals` (insider and congress
tickers, plus strong-news tickers other than `'MARKET'`).  Python iterates a
`set`, whose order is unspecified; the model fixes first-occurrence order,
which no claim depends on. -/
def signalTickers (env : SignalEnv) : List String :=
  (((env.insiderTrades ++ env.congressTrades).map SignalRec.ticker) ++
    ((env.strongNews.filter (fun n => n.ticker ≠ "MARKET")).map SignalRec.ticker)).eraseDups

/-- `SignalProcessor.process_signals`: the blackout gate, then one
`_determine_best_signal` call per ticker, skipping tickers with no insider,
congress or strong-news record. -/
def processSignals (cfg : TradingConfig) (now : ℤ) (env : SignalEnv) :
    List BestSignal :=
  if cfg.skipFomcBlackout && isFomcBlackout now then []
  else
    (signalTickers env).filterMap (fun t =>
      let tickerInsider := env.insiderTrades.filter (fun r => r.ticker = t)
      let tickerCongress := env.congressTrades.filter (fun r => r.ticker = t)
      let tickerNews := env.newsByTicker t
      let tickerStrongNews := env.strongNews.filter (fun r => r.ticker = t)
      if tickerInsider.isEmpty && tickerCongress.isEmpty && tickerStrongNews.isEmpty
      then none
      else determineBestSignal cfg t tickerInsider tickerCongress tickerNews
        tickerStrongNews)

/-- Sanity check of the calendar arithmetic: day 0 is 1970-01-01. -/
theorem daysFromCivil_epoch : daysFromCivil 1970 1 1 = 0 := by decide

/-- Sanity check: 2023-01-31 (an FOMC date) was a Tuesday. -/
theorem weekday_fomc_sample : weekday (daysFromCivil 2023 1 31) = 1 := by decide

/-! ## Generic facts about stable sorting and first-match scans

Python's `list.sort` is stable; `List.mergeSort` is the stable sort used in
the embedding, and the record selections in the source are `sort` followed
by taking the head or the first match.  The lemmas below characterise those
selections. -/

/-- In a list sorted by the boolean relation `le`, the first element
satisfying `p` is `le`-below every element of the list satisfying `p`. -/
theorem find_sorted_max {α : Type} {le : α → α → Bool} {p : α → Bool}
    (total : ∀ a b, le a b || le b a) {l : List α} {x : α}
    (hsort : l.Pairwise (fun a b => le a b = true))
    (hf : l.find? p = some x) :
    ∀ y ∈ l, p y = true → le x y = true := by
  obtain ⟨hp, as, bs, heq, has⟩ := List.find?_eq_some.mp hf
  subst heq
  intro y hy hpy
  rcases List.mem_append.mp hy with hyas | hyxbs
  · have := has y hyas
    simp only [Bool.not_eq_true'] at this
    rw [this] at hpy
    cases hpy
  · rcases List.mem_cons.mp hyxbs with rfl | hybs
    · have := total y y
      simpa using this
    · rw [List.pairwise_append] at hsort
      exact List.rel_of_pairwise_cons hsort.2.1 hybs

/-- The first match of `p` in a stable sort of `l` is a member of `l`,
satisfies `p`, and is `le`-maximal among members of `l` satisfying `p`. -/
theorem find_mergeSort_spec {α : Type} {le : α → α → Bool} {p : α → Bool}
    (trans : ∀ a b c, le a b → le b c → le a c)
    (total : ∀ a b, le a b || le b a)
    {l : List α} {x : α}
    (hf : (l.mergeSort le).find? p = some x) :
    p x = true ∧ x ∈ l ∧ ∀ y ∈ l, p y = true → le x y = true := by
  refine ⟨List.find?_some hf, ?_, ?_⟩
  · exact List.mem_mergeSort.mp (List.mem_of_find?_eq_some hf)
  · intro y hy hpy
    exact find_sorted_max total (List.sorted_mergeSort trans total l) hf y
      (List.mem_mergeSort.mpr hy) hpy

/-- The head of a stable sort of `l` is a member of `l` that is `le`-below
every member. -/
theorem head_mergeSort_max {α : Type} {le : α → α → Bool}
    (trans : ∀ a b c, le a b → le b c → le a c)
    (total : ∀ a b, le a b || le b a)
    {l : List α} {x : α} {rest : List α}
    (h : l.mergeSort le = x :: rest) :
    x ∈ l ∧ ∀ y ∈ l, le x y = true := by
  have hsort := List.sorted_mergeSort trans total l
  rw [h] at hsort
  constructor
  · exact List.mem_mergeSort.mp (h ▸ List.mem_cons_self x rest)
  · intro y hy
    have hy' : y ∈ x :: rest := by
      rw [← h]; exact List.mem_mergeSort.mpr hy
    rcases List.mem_cons.mp hy' with rfl | hyr
    · simpa using total y y
    · exact List.rel_of_pairwise_cons hsort hyr

/-- Stability: if some element `i` of the left part of `l₁ ++ l₂` satisfies
`p` and is not `le`-above the first match `x` of the stable sort, then that
first match lies in the left part (elements of `l₁` precede equal elements
of `l₂` in a stable sort). -/
theorem find_mergeSort_append_left {α : Type} {le : α → α → Bool} {p : α → Bool}
    (trans : ∀ a b c, le a b → le b c → le a c)
    (total : ∀ a b, le a b || le b a) :
    ∀ (l₁ l₂ : List α) (i x : α), i ∈ l₁ → p i = true → le i x = true →
      ((l₁ ++ l₂).mergeSort le).find? p = some x → x ∈ l₁ := by
  intro l₁
  induction l₁ with
  | nil => intro l₂ i x hi; cases hi
  | cons a t ih =>
    intro l₂ i x hi hpi hle hf
    obtain ⟨A, B, h₁, h₂, hA⟩ := List.mergeSort_cons trans total a (t ++ l₂)
    have hf' : ((A ++ a :: B).find? p) = some x := by
      rw [← h₁]; exact hf
    rw [List.find?_append] at hf'
    cases hAf : A.find? p with
    | some y =>
      rw [hAf] at hf'
      simp only [Option.or_some] at hf'
      have hxy : y = x := by injection hf'
      subst hxy
      rcases List.mem_cons.mp hi with rfl | hit
      · -- i = a: every element of A is strictly le-above a, yet le i x and x ∈ A
        have hxA : y ∈ A := List.mem_of_find?_eq_some hAf
        have := hA y hxA
        simp only [Bool.not_eq_true'] at this
        rw [this] at hle
        cases hle
      · -- i ∈ t: recurse through mergeSort (t ++ l₂) = A ++ B
        have hrec : ((t ++ l₂).mergeSort le).find? p = some y := by
          rw [h₂, List.find?_append, hAf, Option.or_some]
        exact List.mem_cons_of_mem a (ih l₂ i y hit hpi hle hrec)
    | none =>
      rw [hAf] at hf'
      simp only [Option.none_or] at hf'
      cases hpa : p a with
      | true =>
        rw [List.find?_cons_of_pos _ hpa] at hf'
        have : a = x := by injection hf'
        subst this
        exact List.mem_cons_self a t
      | false =>
        rw [List.find?_cons_of_neg _ (by simp [hpa])] at hf'
        rcases List.mem_cons.mp hi with rfl | hit
        · rw [hpa] at hpi; cases hpi
        · have hrec : ((t ++ l₂).mergeSort le).find? p = some x := by
            rw [h₂, List.find?_append, hAf, Option.none_or]
            exact hf'
          exact List.mem_cons_of_mem a (ih l₂ i x hit hpi hle hrec)

/-- `confDesc` is transitive. -/
theorem confDesc_trans : ∀ a b c, confDesc a b → confDesc b c → confDesc a c := by
  intro a b c hab hbc
  simp only [confDesc, decide_eq_true_eq] at *
  exact le_trans hbc hab

/-- `confDesc` is total. -/
theorem confDesc_total : ∀ a b, confDesc a b || confDesc b a := by
  intro a b
  simp only [confDesc, Bool.or_eq_true, decide_eq_true_eq]
  exact le_total (conf b) (conf a)

/-- Reduction of `_determine_best_signal` on the Tier-1 path: with a
nonempty sorted strong-news list headed by `n` and a first direction match
`m` in the sorted insider+congress records, the result is the `n`/`m`
pair. -/
theorem determineBestSignal_tier1_eq (cfg : TradingConfig) (ticker : String)
    (insider congress news strongNews : List SignalRec)
    (n m : SignalRec) (rest : List SignalRec)
    (hsort : strongNews.mergeSort confDesc = n :: rest)
    (hne : insider ≠ [] ∨ congress ≠ [])
    (hfind : ((insider ++ congress).mergeSort confDesc).find?
        (fun s => decide (s.signal = n.signal)) = some m) :
    determineBestSignal cfg ticker insider congress news strongNews =
      some ⟨ticker, n.signal, (conf n + conf m) / 2,
        cfg.strongNewsMultiplier, [n, m], 2⟩ := by
  have hSne : strongNews.isEmpty = false := by
    cases strongNews with
    | nil => simp at hsort
    | cons a t => rfl
  have hcond : (!strongNews.isEmpty &&
      (!insider.isEmpty || !congress.isEmpty)) = true := by
    rcases hne with h | h <;>
      simp [hSne, List.isEmpty_iff, h]
  simp only [determineBestSignal, hcond, if_true, hsort, hfind]

/-- Reduction of `_determine_best_signal` on the Tier-2 path: with no
strong news, the head `c` of the sorted congress records is selected. -/
theorem determineBestSignal_tier2_eq (cfg : TradingConfig) (ticker : String)
    (insider congress news : List SignalRec)
    (c : SignalRec) (rest : List SignalRec)
    (hsort : congress.mergeSort confDesc = c :: rest) :
    determineBestSignal cfg ticker insider congress news [] =
      some ⟨ticker, c.signal, conf c, cfg.congressOnlyMultiplier, [c], 1⟩ := by
  simp only [determineBestSignal, List.isEmpty_nil, Bool.not_true,
    Bool.false_and, Bool.false_eq_true, if_false, hsort]

/-- C1.  For a ticker whose strong news is the record `n`, as soon as some
insider or congress record shares `n`'s direction, `_determine_best_signal`
returns the Tier-1 pair: direction is `n`'s direction, the partner `m` is a
maximal-confidence direction match, and the combined confidence is the
arithmetic mean of the two confidences — no matter how confident any
non-matching record from another source is. -/
theorem C1_tier1_pair_selection (cfg : TradingConfig) (ticker : String)
    (insider congress news : List SignalRec) (n : SignalRec)
    (hmatch : ∃ m₀ ∈ insider ++ congress, m₀.signal = n.signal) :
    ∃ m, ((insider ++ congress).mergeSort confDesc).find?
        (fun s => decide (s.signal = n.signal)) = some m ∧
      m ∈ insider ++ congress ∧ m.signal = n.signal ∧
      (∀ y ∈ insider ++ congress, y.signal = n.signal → conf y ≤ conf m) ∧
      determineBestSignal cfg ticker insider congress news [n] =
        some ⟨ticker, n.signal, (conf n + conf m) / 2,
          cfg.strongNewsMultiplier, [n, m], 2⟩ := by
  obtain ⟨m₀, hm₀, hs₀⟩ := hmatch
  have hne : insider ≠ [] ∨ congress ≠ [] := by
    rcases List.mem_append.mp hm₀ with h | h
    · exact Or.inl (List.ne_nil_of_mem h)
    · exact Or.inr (List.ne_nil_of_mem h)
  have hsome : (((insider ++ congress).mergeSort confDesc).find?
      (fun s => decide (s.signal = n.signal))).isSome := by
    rw [List.find?_isSome]
    exact ⟨m₀, List.mem_mergeSort.mpr hm₀, by simpa using hs₀⟩
  obtain ⟨m, hm⟩ := Option.isSome_iff_exists.mp hsome
  obtain ⟨hpm, hmem, hmax⟩ := find_mergeSort_spec confDesc_trans confDesc_total hm
  refine ⟨m, hm, hmem, by simpa using hpm, ?_, ?_⟩
  · intro y hy hys
    have := hmax y hy (by simpa using hys)
    simpa [confDesc] using this
  · exact determineBestSignal_tier1_eq cfg ticker insider congress news [n] n m []
      (by simp) hne hm

/-- Concrete input for C1 and C5: strong news BULLISH 0.9, insider BULLISH
0.7, congress BEARISH 0.95 (the spec's tier-precedence scenario). -/
def newsAAPL : SignalRec := ⟨"AAPL", .news, .bullish, some (9/10)⟩

/-- Insider BULLISH 0.7 record of the spec's tier-precedence scenario. -/
def insAAPL : SignalRec := ⟨"AAPL", .insider, .bullish, some (7/10)⟩

/-- Congress BEARISH 0.95 record of the spec's tier-precedence scenario. -/
def conAAPL : SignalRec := ⟨"AAPL", .congress, .bearish, some (19/20)⟩

/-- Witness for C1: the spec's scenario (news 0.9 BULLISH, insider 0.7
BULLISH, congress 0.95 BEARISH) yields the news+insider pair, BULLISH,
confidence 0.8. -/
theorem C1_witness :
    determineBestSignal {} "AAPL" [insAAPL] [conAAPL] [] [newsAAPL] =
      some ⟨"AAPL", .bullish, 4/5, 2, [newsAAPL, insAAPL], 2⟩ := by
  obtain ⟨m, hfind, -, -, -, heq⟩ :=
    C1_tier1_pair_selection {} "AAPL" [insAAPL] [conAAPL] [] newsAAPL
      ⟨insAAPL, by simp, rfl⟩
  have hcomp : (([insAAPL] ++ [conAAPL]).mergeSort confDesc).find?
      (fun s => decide (s.signal = newsAAPL.signal)) = some insAAPL := by
    norm_num +decide [List.mergeSort, List.find?, confDesc, conf,
      insAAPL, conAAPL, newsAAPL]
  rw [hcomp] at hfind
  have hm : insAAPL = m := by injection hfind
  subst hm
  rw [heq]
  norm_num [conf, newsAAPL, insAAPL]

/-- Concrete input refuting C5's tie-break: strong news BULLISH 0.8. -/
def newsTSLA : SignalRec := ⟨"TSLA", .news, .bullish, some (4/5)⟩

/-- Insider BULLISH 0.5: ties with the congress record. -/
def insTSLA : SignalRec := ⟨"TSLA", .insider, .bullish, some (1/2)⟩

/-- Congress BULLISH 0.5: ties with the insider record. -/
def conTSLA : SignalRec := ⟨"TSLA", .congress, .bullish, some (1/2)⟩

/-- Counterexample to C5: with an insider record and a congress record both
matching the strong news direction at the same confidence (so the two
candidate pairs have equal summed confidence), the selected secondary source
is the INSIDER record, not the congress record: `insider_trades +
congress_trades` lists insider records first and the stable sort keeps them
ahead of equal-confidence congress records. -/
theorem C5_counterexample :
    conf insTSLA = conf conTSLA ∧
    insTSLA.source = .insider ∧ conTSLA.source = .congress ∧
    determineBestSignal {} "TSLA" [insTSLA] [conTSLA] [] [newsTSLA] =
      some ⟨"TSLA", .bullish, 13/20, 2, [newsTSLA, insTSLA], 2⟩ := by
  refine ⟨by norm_num [conf, insTSLA, conTSLA], rfl, rfl, ?_⟩
  norm_num +decide [determineBestSignal, conf, confDesc, List.mergeSort,
    List.find?, newsTSLA, insTSLA, conTSLA]

/-- C5 as amended.  The Aggregator does not search all candidate pairs: it
fixes the highest-confidence strong news record `n` (head of the stable
descending sort) and pairs it with the highest-confidence insider-or-congress
record `m` matching `n`'s direction; when an insider match attains that
maximal confidence, the insider record wins the tie (insider records precede
congress records in the scanned list, and the sort is stable). -/
theorem C5_tier1_pair_amended (cfg : TradingConfig) (ticker : String)
    (insider congress news strongNews : List SignalRec)
    (n : SignalRec) (rest : List SignalRec)
    (hsort : strongNews.mergeSort confDesc = n :: rest)
    (hmatch : ∃ m₀ ∈ insider ++ congress, m₀.signal = n.signal) :
    (n ∈ strongNews ∧ ∀ y ∈ strongNews, conf y ≤ conf n) ∧
    ∃ m, ((insider ++ congress).mergeSort confDesc).find?
        (fun s => decide (s.signal = n.signal)) = some m ∧
      m ∈ insider ++ congress ∧ m.signal = n.signal ∧
      (∀ y ∈ insider ++ congress, y.signal = n.signal → conf y ≤ conf m) ∧
      ((∃ i ∈ insider, i.signal = n.signal ∧ conf m ≤ conf i) → m ∈ insider) ∧
      determineBestSignal cfg ticker insider congress news strongNews =
        some ⟨ticker, n.signal, (conf n + conf m) / 2,
          cfg.strongNewsMultiplier, [n, m], 2⟩ := by
  obtain ⟨m₀, hm₀, hs₀⟩ := hmatch
  have hne : insider ≠ [] ∨ congress ≠ [] := by
    rcases List.mem_append.mp hm₀ with h | h
    · exact Or.inl (List.ne_nil_of_mem h)
    · exact Or.inr (List.ne_nil_of_mem h)
  constructor
  · have := head_mergeSort_max confDesc_trans confDesc_total hsort
    refine ⟨this.1, fun y hy => ?_⟩
    have := this.2 y hy
    simpa [confDesc] using this
  · have hsome : (((insider ++ congress).mergeSort confDesc).find?
        (fun s => decide (s.signal = n.signal))).isSome := by
      rw [List.find?_isSome]
      exact ⟨m₀, List.mem_mergeSort.mpr hm₀, by simpa using hs₀⟩
    obtain ⟨m, hm⟩ := Option.isSome_iff_exists.mp hsome
    obtain ⟨hpm, hmem, hmax⟩ := find_mergeSort_spec confDesc_trans confDesc_total hm
    refine ⟨m, hm, hmem, by simpa using hpm, ?_, ?_, ?_⟩
    · intro y hy hys
      have := hmax y hy (by simpa using hys)
      simpa [confDesc] using this
    · rintro ⟨i, himem, hisig, hile⟩
      exact find_mergeSort_append_left confDesc_trans confDesc_total
        insider congress i m himem (by simpa using hisig)
        (by simpa [confDesc] using hile) hm
    · exact determineBestSignal_tier1_eq cfg ticker insider congress news
        strongNews n m rest hsort hne hm

/-- Witness for C5 (amended): in the equal-confidence scenario the theorem
applies and the insider tie-break conjunct is discharged at a concrete
input. -/
theorem C5_witness :
    determineBestSignal {} "TSLA" [insTSLA] [conTSLA] [] [newsTSLA] =
      some ⟨"TSLA", .bullish, 13/20, 2, [newsTSLA, insTSLA], 2⟩ := by
  obtain ⟨-, m, hfind, -, -, -, -, heq⟩ :=
    C5_tier1_pair_amended {} "TSLA" [insTSLA] [conTSLA] [] [newsTSLA]
      newsTSLA [] (by simp) ⟨insTSLA, by simp, rfl⟩
  have hcomp : (([insTSLA] ++ [conTSLA]).mergeSort confDesc).find?
      (fun s => decide (s.signal = newsTSLA.signal)) = some insTSLA := by
    norm_num +decide [List.mergeSort, List.find?, confDesc, conf,
      insTSLA, conTSLA, newsTSLA]
  rw [hcomp] at hfind
  have hm : insTSLA = m := by injection hfind
  subst hm
  rw [heq]
  norm_num [conf, newsTSLA, insTSLA]

/-- A congress record whose `'confidence'` key is missing. -/
def badGME : SignalRec := ⟨"GME", .congress, .bullish, none⟩

/-- A well-formed congress record with confidence 0.6. -/
def goodGME : SignalRec := ⟨"GME", .congress, .bearish, some (3/5)⟩

/-- Counterexample to C7: a record with a missing confidence is NOT
excluded from tier selection — when it is the only record for its ticker it
is selected, producing a Tier-2 decision with confidence 0 (no exception is
raised, but the record wins the tier). -/
theorem C7_counterexample :
    badGME.confidence = none ∧
    determineBestSignal {} "GME" [] [badGME] [] [] =
      some ⟨"GME", .bullish, 0, 1, [badGME], 1⟩ := by
  refine ⟨rfl, ?_⟩
  norm_num +decide [determineBestSignal, conf, confDesc, List.mergeSort,
    List.find?, badGME]

/-- C7 as amended.  A missing confidence is read as 0 without raising
(`signal.get('confidence', 0)`), and the Tier-2 selection always takes a
maximal-confidence congress record, so a missing-confidence record never
outranks a positive-confidence one; but such a record is not excluded: the
tier still selects it when nothing outranks it, as the counterexample
shows. -/
theorem C7_missing_confidence_amended (cfg : TradingConfig) (ticker : String)
    (insider congress news : List SignalRec) (hc : congress ≠ []) :
    ∃ c, determineBestSignal cfg ticker insider congress news [] =
        some ⟨ticker, c.signal, conf c, cfg.congressOnlyMultiplier, [c], 1⟩ ∧
      c ∈ congress ∧ (∀ y ∈ congress, conf y ≤ conf c) ∧
      (∀ r : SignalRec, r.confidence = none → conf r = 0) ∧
      ((∃ g ∈ congress, 0 < conf g) → c.confidence ≠ none ∧ 0 < conf c) := by
  obtain ⟨c, rest, hsort⟩ : ∃ c rest, congress.mergeSort confDesc = c :: rest := by
    cases hs : congress.mergeSort confDesc with
    | nil =>
      exfalso
      have : congress = [] := by
        have := List.mergeSort_perm congress confDesc
        rw [hs] at this
        exact (List.Perm.nil_eq this).symm
      exact hc this
    | cons a t => exact ⟨a, t, rfl⟩
  obtain ⟨hcm, hcmax⟩ := head_mergeSort_max confDesc_trans confDesc_total hsort
  have hmax : ∀ y ∈ congress, conf y ≤ conf c := by
    intro y hy
    have := hcmax y hy
    simpa [confDesc] using this
  refine ⟨c, determineBestSignal_tier2_eq cfg ticker insider congress news c rest hsort,
    hcm, hmax, fun r hr => by simp [conf, hr], ?_⟩
  rintro ⟨g, hg, hgpos⟩
  have hcpos : 0 < conf c := lt_of_lt_of_le hgpos (hmax g hg)
  refine ⟨fun hnone => ?_, hcpos⟩
  rw [show conf c = 0 from by simp [conf, hnone]] at hcpos
  exact lt_irrefl 0 hcpos

/-- Witness for C7 (amended): with congress records 0.6 and missing, the
theorem applies; the decision picks the 0.6 record. -/
theorem C7_witness :
    determineBestSignal {} "GME" [] [goodGME, badGME] [] [] =
      some ⟨"GME", .bearish, 3/5, 1, [goodGME], 1⟩ := by
  obtain ⟨c, heq, -, -, -, -⟩ :=
    C7_missing_confidence_amended {} "GME" [] [goodGME, badGME] [] (by simp)
  have hcomp : determineBestSignal {} "GME" [] [goodGME, badGME] [] [] =
      some ⟨"GME", .bearish, 3/5, 1, [goodGME], 1⟩ := by
    norm_num +decide [determineBestSignal, conf, confDesc, List.mergeSort,
      List.find?, goodGME, badGME]
  have h2 := heq.symm.trans hcomp
  have hc : c = goodGME := by
    have h3 := Option.some.inj h2
    have h4 := congrArg BestSignal.sources h3
    simpa using h4
  rw [hc] at heq
  norm_num [conf, goodGME] at heq
  exact heq

/-- C2.  When the blackout gate is honored (`skip_fomc_blackout`) and
reports an active window, `process_signals` returns no decisions at all,
whatever the insider, congress and news sources contain. -/
theorem C2_blackout_empty (cfg : TradingConfig) (now : ℤ) (env : SignalEnv)
    (hskip : cfg.skipFomcBlackout = true) (hgate : isFomcBlackout now = true) :
    processSignals cfg now env = [] := by
  simp [processSignals, hskip, hgate]

/-- Witness for C2: 2023-01-25 lies in the blackout window of the
2023-01-31 FOMC meeting, and a cycle with strong records for a ticker still
yields zero decisions. -/
theorem C2_witness :
    isFomcBlackout (daysFromCivil 2023 1 25) = true ∧
    processSignals {} (daysFromCivil 2023 1 25)
      ⟨[insAAPL], [conAAPL], fun _ => [], [newsAAPL]⟩ = [] :=
  ⟨by decide, C2_blackout_empty {} (daysFromCivil 2023 1 25)
    ⟨[insAAPL], [conAAPL], fun _ => [], [newsAAPL]⟩ rfl (by decide)⟩

/-! ## Exit strategy manager (`src/src/strategies/exit_strategy_manager.py`) -/

/-- The `exit_strategy` configuration of `ExitStrategyManager.__init__`
(defaults are the `fallback` values in the source). -/
structure ExitConfig where
  useStopLoss : Bool := true
  stopLossPercent : ℚ := -10
  useTakeProfit : Bool := true
  takeProfitPercent : ℚ := 20
  useTimeBasedExit : Bool := true
  maxHoldDays : ℤ := 30
  useTrailingStop : Bool := false
  trailingStopPercent : ℚ := 5
  exitDuringMarketHoursOnly : Bool := true
deriving Repr

/-- A triggered exit rule; the numeric payloads mirror the numbers the
source interpolates into the reason strings. -/
inductive ExitReason where
  | stopLoss (plpc : ℚ)
  | takeProfit (plpc : ℚ)
  | timeBased (daysHeld : ℤ)
  | trailingStop (decline best : ℚ)
deriving DecidableEq, Repr

/-- The per-symbol entry of `self.trailing_stops` (`highest_price` /
`lowest_price` are `None` for the direction not being tracked). -/
structure TrailingData where
  highestPrice : Option ℚ
  lowestPrice : Option ℚ
  bestPlPercent : ℚ
deriving DecidableEq, Repr

/-- The `self.trailing_stops` dict, as a partial map from symbols. -/
def TrailingStops : Type := String → Option TrailingData

/-- `self.trailing_stops[symbol] = td`. -/
def setStop (stops : TrailingStops) (symbol : String) (td : TrailingData) :
    TrailingStops :=
  fun s => if s = symbol then some td else stops s

/-- `del self.trailing_stops[symbol]` (used by `execute_exits` after a
successful close). -/
def delStop (stops : TrailingStops) (symbol : String) : TrailingStops :=
  fun s => if s = symbol then none else stops s

/-- `ExitStrategyManager._check_trailing_stop`.  On first observation the
symbol is seeded and no reason is returned.  Afterwards the stored peak
price and peak P&L% are raised to the current values, and the trailing stop
fires when the (updated) peak P&L% is positive and has declined by at least
`trailing_stop_percent`.  When the direction of the call disagrees with the
seeded direction, the stored price bound is `None` and the Python
comparison raises `TypeError`, which the handler turns into "no reason,
state unchanged". -/
def checkTrailingStop (cfg : ExitConfig) (stops : TrailingStops)
    (symbol : String) (currentPrice currentPl : ℚ) (isLong : Bool) :
    TrailingStops × Option ExitReason :=
  match stops symbol with
  | none =>
    (setStop stops symbol
      { highestPrice := if isLong then some currentPrice else none
        lowestPrice := if isLong then none else some currentPrice
        bestPlPercent := currentPl }, none)
  | some td =>
    if isLong then
      match td.highestPrice with
      | none => (stops, none)
      | some h =>
        let td1 := if currentPrice > h then { td with highestPrice := some currentPrice } else td
        let td2 := if currentPl > td1.bestPlPercent then { td1 with bestPlPercent := currentPl } else td1
        let reason :=
          if td2.bestPlPercent > 0 ∧ td2.bestPlPercent - currentPl ≥ cfg.trailingStopPercent
          then some (ExitReason.trailingStop (td2.bestPlPercent - currentPl) td2.bestPlPercent)
          else none
        (setStop stops symbol td2, reason)
    else
      match td.lowestPrice with
      | none => (stops, none)
      | some lo =>
        let td1 := if currentPrice < lo then { td with lowestPrice := some currentPrice } else td
        let td2 := if currentPl > td1.bestPlPercent then { td1 with bestPlPercent := currentPl } else td1
        let reason :=
          if td2.bestPlPercent > 0 ∧ td2.bestPlPercent - currentPl ≥ cfg.trailingStopPercent
          then some (ExitReason.trailingStop (td2.bestPlPercent - currentPl) td2.bestPlPercent)
          else none
        (setStop stops symbol td2, reason)

/-- Side of a filled order returned by the brokerage. -/
inductive OrderSide where
  | buy
  | sell
deriving DecidableEq, Repr

/-- A filled order as read by `_estimate_position_age` (`created_at` is
modelled as a day number; the sub-day part of the timestamp carries no
logic for the `.days` difference used). -/
structure BrokerOrder where
  side : OrderSide
  createdAt : ℤ
deriving DecidableEq, Repr

/-- `buy_orders.sort(key=lambda x: x.created_at, reverse=True)`. -/
def createdDesc (a b : BrokerOrder) : Bool := decide (b.createdAt ≤ a.createdAt)

/-- `ExitStrategyManager._estimate_position_age`: age of the most recent
filled BUY order for the symbol, defaulting to 0 when the order query
fails, returns nothing, or returns no buy order. -/
def estimatePositionAge (ordersResult : Except Unit (List BrokerOrder))
    (now : ℤ) : ℤ :=
  match ordersResult with
  | .error _ => 0
  | .ok orders =>
    if orders.isEmpty then 0
    else
      let buyOrders := orders.filter (fun o => decide (o.side = OrderSide.buy))
      if buyOrders.isEmpty then 0
      else
        match buyOrders.mergeSort createdDesc with
        | latest :: _ => max 0 (now - latest.createdAt)
        | [] => 0

/-- An open position as read by the exit manager.  Each numeric attribute
is an `Option ℚ`: `none` models a value on which the `float(...)`
conversion raises. -/
structure Position where
  symbol : String
  qty : Option ℚ
  costBasis : Option ℚ
  currentPrice : Option ℚ
  unrealizedPl : Option ℚ
  unrealizedPlpc : Option ℚ
deriving DecidableEq, Repr

/-- `float(x)`: raises on a malformed value. -/
def floatOf : Option ℚ → Except Unit ℚ
  | some q => .ok q
  | none => .error ()

/-- The collaborator inputs of the exit manager: the order query used by
`_estimate_position_age` (which may raise) and the current time. -/
structure ExitEnv where
  orders : String → Except Unit (List BrokerOrder)
  now : ℤ

/-- The body of `_check_position_exit_conditions` before its exception
handler: the attribute conversions (which may raise), then the four rules
in source order.  Note all conversions precede every append to
`exit_reasons`, and `_estimate_position_age` / `_check_trailing_stop`
swallow their own exceptions. -/
def checkPositionExitBody (cfg : ExitConfig) (env : ExitEnv)
    (stops : TrailingStops) (pos : Position) :
    Except Unit (TrailingStops × List ExitReason) := do
  let qty ← floatOf pos.qty
  let _costBasis ← floatOf pos.costBasis
  let currentPrice ← floatOf pos.currentPrice
  let _unrealizedPl ← floatOf pos.unrealizedPl
  let plpcRaw ← floatOf pos.unrealizedPlpc
  let plpc := plpcRaw * 100
  let r1 : List ExitReason :=
    if cfg.useStopLoss ∧ plpc ≤ cfg.stopLossPercent then [.stopLoss plpc] else []
  let r2 : List ExitReason :=
    if cfg.useTakeProfit ∧ plpc ≥ cfg.takeProfitPercent then [.takeProfit plpc] else []
  let r3 : List ExitReason :=
    if cfg.useTimeBasedExit ∧ cfg.maxHoldDays > 0 then
      let daysHeld := estimatePositionAge (env.orders pos.symbol) env.now
      if daysHeld ≥ cfg.maxHoldDays then [.timeBased daysHeld] else []
    else []
  if cfg.useTrailingStop then
    let res := checkTrailingStop cfg stops pos.symbol currentPrice plpc (decide (qty > 0))
    return (res.1, r1 ++ r2 ++ r3 ++ res.2.toList)
  else
    return (stops, r1 ++ r2 ++ r3)

/-- `ExitStrategyManager._check_position_exit_conditions`: the exception
handler returns the reasons accumulated before the error — necessarily `[]`
since every conversion precedes the first append — instead of
propagating. -/
def checkPositionExitConditions (cfg : ExitConfig) (env : ExitEnv)
    (stops : TrailingStops) (pos : Position) :
    TrailingStops × List ExitReason :=
  match checkPositionExitBody cfg env stops pos with
  | .ok r => r
  | .error _ => (stops, [])

/-- The `for position in positions` loop of `check_exit_conditions`,
collecting `{'position': p, 'reasons': rs}` entries for positions with a
nonempty reason list and threading the trailing-stop state. -/
def checkExitLoop (cfg : ExitConfig) (env : ExitEnv) :
    TrailingStops → List Position →
      TrailingStops × List (Position × List ExitReason)
  | stops, [] => (stops, [])
  | stops, p :: rest =>
    let res := checkPositionExitConditions cfg env stops p
    let next := checkExitLoop cfg env res.1 rest
    (next.1, (if res.2.isEmpty then [] else [(p, res.2)]) ++ next.2)

/-- `ExitStrategyManager.check_exit_conditions`: market-hours gate, the
position query (whose failure yields no closures), then the loop. -/
def checkExitConditions (cfg : ExitConfig) (env : ExitEnv) (marketOpen : Bool)
    (positionsResult : Except Unit (List Position)) (stops : TrailingStops) :
    TrailingStops × List (Position × List ExitReason) :=
  if cfg.exitDuringMarketHoursOnly ∧ ¬ marketOpen then (stops, [])
  else
    match positionsResult with
    | .error _ => (stops, [])
    | .ok ps => if ps.isEmpty then (stops, []) else checkExitLoop cfg env stops ps

/-- One `_check_trailing_stop` call viewed through the symbol's own map
entry (the source function reads and writes only `trailing_stops[symbol]`). -/
def stepTrailing (cfg : ExitConfig) (symbol : String) (st : Option TrailingData)
    (currentPrice currentPl : ℚ) (isLong : Bool) :
    Option TrailingData × Option ExitReason :=
  let res := checkTrailingStop cfg (fun s => if s = symbol then st else none)
    symbol currentPrice currentPl isLong
  (res.1 symbol, res.2)

/-- A sequence of `_check_trailing_stop` evaluations of one symbol over a
list of `(current_price, current_pl_percent)` observations. -/
def runTrailing (cfg : ExitConfig) (symbol : String) (isLong : Bool) :
    Option TrailingData → List (ℚ × ℚ) →
      Option TrailingData × List (Option ExitReason)
  | st, [] => (st, [])
  | st, ob :: rest =>
    let res := stepTrailing cfg symbol st ob.1 ob.2 isLong
    let next := runTrailing cfg symbol isLong res.1 rest
    (next.1, res.2 :: next.2)

/-- `(if a < b then b else a) = max a b` over ℚ. -/
theorem if_lt_eq_max (a b : ℚ) : (if a < b then b else a) = max a b := by
  rcases le_or_lt b a with h | h
  · rw [if_neg (not_lt.mpr h), max_eq_left h]
  · rw [if_pos h, max_eq_right h.le]

/-- `(if b < a then b else a) = min a b` over ℚ. -/
theorem if_lt_eq_min (a b : ℚ) : (if b < a then b else a) = min a b := by
  rcases le_or_lt a b with h | h
  · rw [if_neg (not_lt.mpr h), min_eq_left h]
  · rw [if_pos h, min_eq_right h.le]

/-- Characterisation of a tracking step of `_check_trailing_stop` for a
long position: peaks are raised to the current values and the trigger
fires iff the updated peak P&L% is positive and has declined by at least
the configured percentage. -/
theorem checkTrailingStop_tracking_long (cfg : ExitConfig)
    (stops : TrailingStops) (symbol : String) (price pl : ℚ)
    (td : TrailingData) (h : ℚ)
    (hst : stops symbol = some td) (hh : td.highestPrice = some h) :
    checkTrailingStop cfg stops symbol price pl true =
      (setStop stops symbol
        { highestPrice := some (max h price)
          lowestPrice := td.lowestPrice
          bestPlPercent := max td.bestPlPercent pl },
       if 0 < max td.bestPlPercent pl ∧
          cfg.trailingStopPercent ≤ max td.bestPlPercent pl - pl
       then some (ExitReason.trailingStop (max td.bestPlPercent pl - pl)
         (max td.bestPlPercent pl))
       else none) := by
  simp only [checkTrailingStop, hst, hh, if_true]
  rw [show ({ td with highestPrice := some price } : TrailingData) =
    { highestPrice := some price, lowestPrice := td.lowestPrice,
      bestPlPercent := td.bestPlPercent } from rfl]
  rcases le_or_lt price h with h1 | h1
  · rw [if_neg (not_lt.mpr h1), max_eq_left h1, hh]
    rcases le_or_lt pl td.bestPlPercent with h2 | h2
    · rw [if_neg (not_lt.mpr h2), max_eq_left h2, ← hh]
    · rw [if_pos h2, max_eq_right h2.le]
  · rw [if_pos h1, max_eq_right h1.le]
    rcases le_or_lt pl td.bestPlPercent with h2 | h2
    · rw [if_neg (not_lt.mpr h2), max_eq_left h2]
    · rw [if_pos h2, max_eq_right h2.le]

/-- Characterisation of a tracking step of `_check_trailing_stop` for a
short position (mirror image of the long case; the peak P&L% update and
the trigger test are identical). -/
theorem checkTrailingStop_tracking_short (cfg : ExitConfig)
    (stops : TrailingStops) (symbol : String) (price pl : ℚ)
    (td : TrailingData) (lo : ℚ)
    (hst : stops symbol = some td) (hlo : td.lowestPrice = some lo) :
    checkTrailingStop cfg stops symbol price pl false =
      (setStop stops symbol
        { highestPrice := td.highestPrice
          lowestPrice := some (min lo price)
          bestPlPercent := max td.bestPlPercent pl },
       if 0 < max td.bestPlPercent pl ∧
          cfg.trailingStopPercent ≤ max td.bestPlPercent pl - pl
       then some (ExitReason.trailingStop (max td.bestPlPercent pl - pl)
         (max td.bestPlPercent pl))
       else none) := by
  simp only [checkTrailingStop, hst, hlo, Bool.false_eq_true, if_false]
  rw [show ({ td with lowestPrice := some price } : TrailingData) =
    { highestPrice := td.highestPrice, lowestPrice := some price,
      bestPlPercent := td.bestPlPercent } from rfl]
  rcases le_or_lt lo price with h1 | h1
  · rw [if_neg (not_lt.mpr h1), min_eq_left h1, hlo]
    rcases le_or_lt pl td.bestPlPercent with h2 | h2
    · rw [if_neg (not_lt.mpr h2), max_eq_left h2, ← hlo]
    · rw [if_pos h2, max_eq_right h2.le]
  · rw [if_pos h1, min_eq_right h1.le]
    rcases le_or_lt pl td.bestPlPercent with h2 | h2
    · rw [if_neg (not_lt.mpr h2), max_eq_left h2]
    · rw [if_pos h2, max_eq_right h2.le]

/-- The tracking step seen through the symbol's own entry: some updated
state is stored, the stored peak P&L% becomes `max` of old peak and current,
and the trigger fires iff the stored peak is positive and has declined by at
least the configured percentage. -/
theorem stepTrailing_tracking (cfg : ExitConfig) (symbol : String)
    (td : TrailingData) (price pl : ℚ) (isLong : Bool)
    (hdir : (if isLong then td.highestPrice.isSome else td.lowestPrice.isSome) = true) :
    stepTrailing cfg symbol (some td) price pl isLong =
      (some { highestPrice := if isLong then some (max (td.highestPrice.getD 0) price)
                              else td.highestPrice
              lowestPrice := if isLong then td.lowestPrice
                             else some (min (td.lowestPrice.getD 0) price)
              bestPlPercent := max td.bestPlPercent pl },
       if 0 < max td.bestPlPercent pl ∧
          cfg.trailingStopPercent ≤ max td.bestPlPercent pl - pl
       then some (ExitReason.trailingStop (max td.bestPlPercent pl - pl)
         (max td.bestPlPercent pl))
       else none) := by
  cases isLong with
  | true =>
    simp only [if_true] at hdir ⊢
    obtain ⟨h, hh⟩ := Option.isSome_iff_exists.mp hdir
    rw [stepTrailing, checkTrailingStop_tracking_long cfg _ symbol price pl td h
      (by simp) hh]
    simp [setStop, hh]
  | false =>
    simp only [Bool.false_eq_true, if_false] at hdir ⊢
    obtain ⟨lo, hlo⟩ := Option.isSome_iff_exists.mp hdir
    rw [stepTrailing, checkTrailingStop_tracking_short cfg _ symbol price pl td lo
      (by simp) hlo]
    simp [setStop, hlo]

/-- C3.  Trailing-stop semantics of `_check_trailing_stop`: (1) the first
observation of a symbol seeds the state with the current price and P&L% and
reports no trigger; (2) on every later observation (with the stored
direction bound present, as the seeding guarantees for a position of fixed
direction) the trigger fires iff the stored peak P&L% is strictly positive
and exceeds the current P&L% by at least `trailing_stop_percent`; (3) a
position whose P&L% is never positive across all observations never
triggers. -/
theorem C3_trailing_stop_semantics (cfg : ExitConfig) (symbol : String)
    (isLong : Bool) :
    (∀ price pl, stepTrailing cfg symbol none price pl isLong =
        (some { highestPrice := if isLong then some price else none
                lowestPrice := if isLong then none else some price
                bestPlPercent := pl }, none)) ∧
    (∀ td price pl,
        (if isLong then td.highestPrice.isSome else td.lowestPrice.isSome) = true →
        ((stepTrailing cfg symbol (some td) price pl isLong).2.isSome ↔
          (0 < max td.bestPlPercent pl ∧
            cfg.trailingStopPercent ≤ max td.bestPlPercent pl - pl))) ∧
    (∀ obs : List (ℚ × ℚ), (∀ ob ∈ obs, ob.2 ≤ 0) →
        ∀ r ∈ (runTrailing cfg symbol isLong none obs).2, r = none) := by
  have hstep : ∀ st price pl,
      (st = none ∨ ∃ td, st = some td ∧ td.bestPlPercent ≤ 0) → pl ≤ 0 →
      (stepTrailing cfg symbol st price pl isLong).2 = none ∧
        ((stepTrailing cfg symbol st price pl isLong).1 = none ∨
          ∃ td, (stepTrailing cfg symbol st price pl isLong).1 = some td ∧
            td.bestPlPercent ≤ 0) := by
    intro st price pl hinv hpl
    rcases hinv with rfl | ⟨td, rfl, hbest⟩
    · refine ⟨?_, Or.inr ⟨⟨if isLong then some price else none,
        if isLong then none else some price, pl⟩, ?_, hpl⟩⟩
      · simp [stepTrailing, checkTrailingStop]
      · simp [stepTrailing, checkTrailingStop, setStop]
    · by_cases hdir : if isLong then td.highestPrice.isSome else td.lowestPrice.isSome
      · rw [stepTrailing_tracking cfg symbol td price pl isLong hdir]
        have hmax : max td.bestPlPercent pl ≤ 0 := max_le hbest hpl
        refine ⟨?_, Or.inr ⟨_, rfl, hmax⟩⟩
        simp only [if_neg (fun hc : _ ∧ _ => absurd hc.1 (not_lt.mpr hmax))]
      · cases isLong with
        | true =>
          simp only [if_true] at hdir
          rw [Option.not_isSome_iff_eq_none] at hdir
          refine ⟨?_, Or.inr ⟨td, ?_, hbest⟩⟩ <;>
            simp [stepTrailing, checkTrailingStop, hdir]
        | false =>
          simp only [Bool.false_eq_true, if_false] at hdir
          rw [Option.not_isSome_iff_eq_none] at hdir
          refine ⟨?_, Or.inr ⟨td, ?_, hbest⟩⟩ <;>
            simp [stepTrailing, checkTrailingStop, hdir]
  refine ⟨?_, ?_, ?_⟩
  · intro price pl
    cases isLong <;> simp [stepTrailing, checkTrailingStop, setStop]
  · intro td price pl hdir
    rw [stepTrailing_tracking cfg symbol td price pl isLong hdir]
    by_cases hc : 0 < max td.bestPlPercent pl ∧
        cfg.trailingStopPercent ≤ max td.bestPlPercent pl - pl
    · simp [hc]
    · simp [hc]
  · have hrun : ∀ (obs : List (ℚ × ℚ)) st,
        (st = none ∨ ∃ td, st = some td ∧ td.bestPlPercent ≤ 0) →
        (∀ ob ∈ obs, ob.2 ≤ 0) →
        ∀ r ∈ (runTrailing cfg symbol isLong st obs).2, r = none := by
      intro obs
      induction obs with
      | nil => intro st hinv hob r hr; simp [runTrailing] at hr
      | cons ob rest ih =>
        intro st hinv hob r hr
        have h1 := hstep st ob.1 ob.2 hinv (hob ob (List.mem_cons_self ob rest))
        simp only [runTrailing, List.mem_cons] at hr
        rcases hr with rfl | hr
        · exact h1.1
        · exact ih _ h1.2 (fun o ho => hob o (List.mem_cons_of_mem ob ho)) r hr
    exact fun obs hob => hrun obs none (Or.inl rfl) hob

/-- C4.  While a symbol stays tracked, `best_pl_percent` never regresses:
every tracking step stores `max` of the stored peak and the current P&L%
(so it is monotonically non-decreasing over any run of evaluations), and
the trigger comparison is made against that stored peak. -/
theorem C4_best_pl_monotone (cfg : ExitConfig) (symbol : String)
    (isLong : Bool) :
    (∀ td price pl, ∃ td2,
        (stepTrailing cfg symbol (some td) price pl isLong).1 = some td2 ∧
        td.bestPlPercent ≤ td2.bestPlPercent ∧
        ((if isLong then td.highestPrice.isSome else td.lowestPrice.isSome) = true →
          td2.bestPlPercent = max td.bestPlPercent pl ∧
          ((stepTrailing cfg symbol (some td) price pl isLong).2.isSome ↔
            (0 < td2.bestPlPercent ∧
              cfg.trailingStopPercent ≤ td2.bestPlPercent - pl)))) ∧
    (∀ (obs : List (ℚ × ℚ)) (td : TrailingData), ∃ td2,
        (runTrailing cfg symbol isLong (some td) obs).1 = some td2 ∧
        td.bestPlPercent ≤ td2.bestPlPercent) := by
  have hstep : ∀ td price pl, ∃ td2,
      (stepTrailing cfg symbol (some td) price pl isLong).1 = some td2 ∧
      td.bestPlPercent ≤ td2.bestPlPercent ∧
      ((if isLong then td.highestPrice.isSome else td.lowestPrice.isSome) = true →
        td2.bestPlPercent = max td.bestPlPercent pl ∧
        ((stepTrailing cfg symbol (some td) price pl isLong).2.isSome ↔
          (0 < td2.bestPlPercent ∧
            cfg.trailingStopPercent ≤ td2.bestPlPercent - pl))) := by
    intro td price pl
    by_cases hdir : if isLong then td.highestPrice.isSome else td.lowestPrice.isSome
    · rw [stepTrailing_tracking cfg symbol td price pl isLong hdir]
      refine ⟨_, rfl, le_max_left _ _, fun _ => ⟨rfl, ?_⟩⟩
      by_cases hc : 0 < max td.bestPlPercent pl ∧
          cfg.trailingStopPercent ≤ max td.bestPlPercent pl - pl
      · simp [hc]
      · simp [hc]
    · refine ⟨td, ?_, le_refl _, fun h => absurd h hdir⟩
      cases isLong with
      | true =>
        simp only [if_true] at hdir
        rw [Option.not_isSome_iff_eq_none] at hdir
        simp [stepTrailing, checkTrailingStop, hdir]
      | false =>
        simp only [Bool.false_eq_true, if_false] at hdir
        rw [Option.not_isSome_iff_eq_none] at hdir
        simp [stepTrailing, checkTrailingStop, hdir]
  refine ⟨hstep, ?_⟩
  intro obs
  induction obs with
  | nil => intro td; exact ⟨td, rfl, le_refl _⟩
  | cons ob rest ih =>
    intro td
    obtain ⟨td1, h1, hle1, -⟩ := hstep td ob.1 ob.2
    obtain ⟨td2, h2, hle2⟩ := ih td1
    refine ⟨td2, ?_, le_trans hle1 hle2⟩
    simp only [runTrailing]
    rw [h1]
    exact h2

/-- Exit configuration with trailing stops enabled (the defaults otherwise;
`trailing_stop_percent` keeps its fallback of 5). -/
def trailCfg : ExitConfig := { useTrailingStop := true }

/-- Witness for C3: seeding at P&L 5 stores price and P&L with no trigger;
from a stored peak of 12, observing P&L 4 triggers (12 − 4 ≥ 5); a run
observed only at non-positive P&L (−3, −20, −1) never triggers. -/
theorem C3_witness :
    stepTrailing trailCfg "XYZ" none 100 5 true =
      (some ⟨some 100, none, 5⟩, none) ∧
    ((stepTrailing trailCfg "XYZ" (some ⟨some 110, none, 12⟩) 95 4 true).2.isSome ↔
      (0 < max (12:ℚ) 4 ∧ (5:ℚ) ≤ max (12:ℚ) 4 - 4)) ∧
    (∀ r ∈ (runTrailing trailCfg "XYZ" true none
        [(100, -3), (80, -20), (120, -1)]).2, r = none) := by
  obtain ⟨h1, h2, h3⟩ := C3_trailing_stop_semantics trailCfg "XYZ" true
  refine ⟨by simpa using h1 100 5, ?_, ?_⟩
  · simpa [trailCfg] using h2 ⟨some 110, none, 12⟩ 95 4 (by simp)
  · exact h3 [(100, -3), (80, -20), (120, -1)] (by norm_num)

/-- Witness for C4: a concrete tracking step raises the stored peak from 7
to 9, and a concrete run from peak 7 ends with a peak at least 7. -/
theorem C4_witness :
    (∃ td2, (stepTrailing trailCfg "XYZ" (some ⟨some 100, none, 7⟩) 104 9 true).1 =
        some td2 ∧ (7:ℚ) ≤ td2.bestPlPercent) ∧
    (∃ td2, (runTrailing trailCfg "XYZ" true (some ⟨some 100, none, 7⟩)
        [(90, -4), (120, 15), (100, 2)]).1 = some td2 ∧
      (7:ℚ) ≤ td2.bestPlPercent) := by
  obtain ⟨hstep, hrun⟩ := C4_best_pl_monotone trailCfg "XYZ" true
  constructor
  · obtain ⟨td2, heq, hle, -⟩ := hstep ⟨some 100, none, 7⟩ 104 9
    exact ⟨td2, heq, hle⟩
  · obtain ⟨td2, heq, hle⟩ := hrun [(90, -4), (120, 15), (100, 2)] ⟨some 100, none, 7⟩
    exact ⟨td2, heq, hle⟩

/-! ## Inverse strategy (`src/src/strategies/inverse_strategy.py`) -/

/-- Python `int(x)` on a float: truncation toward zero. -/
def pyInt (q : ℚ) : ℤ := if 0 ≤ q then ⌊q⌋ else ⌈q⌉

/-- Order action (`'BUY'`/`'SELL'`, lower-cased into the order side). -/
inductive TradeAction where
  | buy
  | sell
deriving DecidableEq, Repr

/-- One `submit_order` call: the order intent sent to the brokerage. -/
structure OrderIntent where
  symbol : String
  side : TradeAction
  qty : ℤ
deriving DecidableEq, Repr

/-- Handle returned by a successful `submit_order`. -/
structure OrderHandle where
  id : ℕ
deriving DecidableEq, Repr

/-- Result of `wait_for_order`; `filledAvgPrice`/`filledQty` are `none`
when the `float(...)`/`int(...)` conversion would raise. -/
structure FilledOrder where
  id : ℕ
  status : String
  filledAvgPrice : Option ℚ
  filledQty : Option ℤ
deriving DecidableEq, Repr

/-- The trade-result dict of `_execute_trade` (the `date` stamp and the
attached `signal` reference are elided). -/
structure TradeResult where
  ticker : String
  action : TradeAction
  quantity : ℤ
  price : ℚ
  totalValue : ℚ
deriving DecidableEq, Repr

/-- A brokerage position as read by `execute_trades` (`int(p.qty)` is
applied to a well-formed numeric quantity). -/
structure StratPosition where
  symbol : String
  qty : ℚ
deriving DecidableEq, Repr

/-- Account snapshot (`equity`, `buying_power`). -/
structure Account where
  equity : ℚ
  buyingPower : ℚ
deriving DecidableEq, Repr

/-- The collaborators used inside the `execute_trades` loop.  `submitOrder`
and `waitForOrder` may raise (`Except.error`) or report a falsy result
(`Option.none`). -/
structure StratEnv where
  validateSymbol : String → Bool
  shouldSkipForExit : String → Bool
  positions : List StratPosition
  lastPrice : String → Option ℚ
  submitOrder : OrderIntent → Except Unit (Option OrderHandle)
  waitForOrder : ℕ → Except Unit (Option FilledOrder)

/-- The configuration read by `InverseStrategy.__init__` (defaults are the
`fallback` values in the source). -/
structure StratConfig where
  maxPositionSizePercent : ℚ := 5
  useMargin : Bool := false
  maxLeverage : ℚ := 1
  useOptions : Bool := true
  minOptionConfidence : ℚ := 7/10
  maxOptionPositionPercent : ℚ := 2
  targetDelta : ℚ := 1/5
  targetDaysToExpiry : ℤ := 30
deriving Repr

/-- `InverseStrategy._execute_trade`: returns the submitted intents (the
`submit_order` calls made) together with the trade result; every failure
path — non-positive quantity, a raise from `submit_order` or
`wait_for_order`, a falsy order, an unfilled order, a malformed fill field —
yields `none` instead of propagating. -/
def executeTradeS (env : StratEnv) (ticker : String) (action : TradeAction)
    (qty : ℤ) : List OrderIntent × Option TradeResult :=
  if qty ≤ 0 then ([], none)
  else
    (([⟨ticker, action, qty⟩] : List OrderIntent),
      match env.submitOrder ⟨ticker, action, qty⟩ with
      | .error _ => none
      | .ok none => none
      | .ok (some order) =>
        match env.waitForOrder order.id with
        | .error _ => none
        | .ok none => none
        | .ok (some filled) =>
          if filled.status ≠ "filled" then none
          else
            match filled.filledAvgPrice, filled.filledQty with
            | some fillPrice, some filledQty =>
              some ⟨ticker, action, filledQty, fillPrice, fillPrice * filledQty⟩
            | _, _ => none)

/-- The body of the `for signal in signals` loop of
`InverseStrategy.execute_trades` for one signal: confidence floor, symbol
validation, the (twice-evaluated) exit-skip check, sizing, then the
open / add-on / close-and-reopen decision.  Returns the submitted intents
and the appended trade result. -/
def processSignalTrade (env : StratEnv) (maxPositionValue : ℚ)
    (signal : BestSignal) : List OrderIntent × Option TradeResult :=
  if signal.confidence < 1/2 then ([], none)
  else if !env.validateSymbol signal.ticker then ([], none)
  else if env.shouldSkipForExit signal.ticker then ([], none)
  else if env.shouldSkipForExit signal.ticker then ([], none)
  else
    let existingPosition :=
      env.positions.find? (fun p => decide (p.symbol = signal.ticker))
    let positionValue := maxPositionValue * signal.positionMultiplier
    match env.lastPrice signal.ticker with
    | none => ([], none)
    | some currentPrice =>
      if currentPrice = 0 then ([], none)
      else
        let shares := pyInt (positionValue / currentPrice)
        if shares ≤ 0 ∨ (shares : ℚ) * currentPrice < 1 then ([], none)
        else
          match existingPosition with
          | some p =>
            let currentShares := pyInt p.qty
            let isLongPos := decide (currentShares > 0)
            if (signal.signal = Direction.bullish ∧ isLongPos) ∨
               (signal.signal = Direction.bearish ∧ ¬ isLongPos) then
              if |currentShares| < shares then
                let action := if isLongPos then TradeAction.buy else TradeAction.sell
                executeTradeS env signal.ticker action (shares - |currentShares|)
              else ([], none)
            else
              let closeAction := if isLongPos then TradeAction.sell else TradeAction.buy
              let closeRes := executeTradeS env signal.ticker closeAction |currentShares|
              let newAction := if signal.signal = Direction.bullish
                               then TradeAction.buy else TradeAction.sell
              let openRes := executeTradeS env signal.ticker newAction shares
              (closeRes.1 ++ openRes.1, openRes.2)
          | none =>
            let action := if signal.signal = Direction.bullish
                          then TradeAction.buy else TradeAction.sell
            executeTradeS env signal.ticker action shares

/-- The `for signal in signals` loop: each signal's trade result (when
any) is appended to `executed_trades`; no state crosses iterations. -/
def executeTradesLoop (env : StratEnv) (maxPositionValue : ℚ) :
    List BestSignal → List TradeResult
  | [] => []
  | s :: rest =>
    match (processSignalTrade env maxPositionValue s).2 with
    | some t => t :: executeTradesLoop env maxPositionValue rest
    | none => executeTradesLoop env maxPositionValue rest

/-- `signals.sort(key=lambda x: (x.get('source_count', 0),
x.get('confidence', 0)), reverse=True)`: stable descending lexicographic
order. -/
def sigDesc (a b : BestSignal) : Bool :=
  decide (b.sourceCount < a.sourceCount ∨
    (b.sourceCount = a.sourceCount ∧ b.confidence ≤ a.confidence))

/-- `InverseStrategy.execute_trades`: account fetch, margin-capped buying
power, position sizing and the sorted per-signal loop. -/
def executeTrades (cfg : StratConfig) (env : StratEnv)
    (account : Option Account) (signals : List BestSignal) :
    List TradeResult :=
  if signals.isEmpty then []
  else
    match account with
    | none => []
    | some acct =>
      let effectiveBuyingPower :=
        if cfg.useMargin ∧ acct.buyingPower > acct.equity
        then min acct.buyingPower (acct.equity * cfg.maxLeverage)
        else acct.buyingPower
      let maxPositionValue := effectiveBuyingPower * (cfg.maxPositionSizePercent / 100)
      executeTradesLoop env maxPositionValue (signals.mergeSort sigDesc)

/-- A positive-quantity `_execute_trade` call submits exactly one order
intent. -/
theorem executeTradeS_intents (env : StratEnv) (t : String) (a : TradeAction)
    (q : ℤ) (hq : 0 < q) :
    (executeTradeS env t a q).1 = [⟨t, a, q⟩] := by
  rw [executeTradeS, if_neg (not_le.mpr hq)]

/-- C6.  When a decision's direction is opposite to the existing position,
the per-signal body of `execute_trades` submits exactly two order intents:
first a close for the full existing (absolute) quantity, then a fresh open
for the full target share count in the new direction — never one netted
order. -/
theorem C6_flip_two_intents (env : StratEnv) (mpv : ℚ) (signal : BestSignal)
    (p : StratPosition) (price : ℚ)
    (hconf : ¬ signal.confidence < 1/2)
    (hval : env.validateSymbol signal.ticker = true)
    (hskip : env.shouldSkipForExit signal.ticker = false)
    (hfind : env.positions.find? (fun q => decide (q.symbol = signal.ticker)) = some p)
    (hprice : env.lastPrice signal.ticker = some price)
    (hpz : ¬ price = 0)
    (hshares : 0 < pyInt (mpv * signal.positionMultiplier / price))
    (hmin : ¬ ((pyInt (mpv * signal.positionMultiplier / price) : ℚ) * price < 1))
    (hopp : (signal.signal = Direction.bullish ∧ pyInt p.qty < 0) ∨
            (signal.signal = Direction.bearish ∧ 0 < pyInt p.qty)) :
    (processSignalTrade env mpv signal).1 =
      [⟨signal.ticker,
        (if 0 < pyInt p.qty then TradeAction.sell else TradeAction.buy),
        |pyInt p.qty|⟩,
       ⟨signal.ticker,
        (if signal.signal = Direction.bullish then TradeAction.buy else TradeAction.sell),
        pyInt (mpv * signal.positionMultiplier / price)⟩] ∧
    (processSignalTrade env mpv signal).1.length = 2 := by
  have habs : 0 < |pyInt p.qty| := by
    rcases hopp with ⟨-, hq⟩ | ⟨-, hq⟩
    · exact abs_pos.mpr (ne_of_lt hq)
    · exact abs_pos.mpr (ne_of_gt hq)
  have hsame : ¬ ((signal.signal = Direction.bullish ∧
      (decide (pyInt p.qty > 0) : Bool)) ∨
      (signal.signal = Direction.bearish ∧ ¬ (decide (pyInt p.qty > 0) : Bool))) := by
    rintro (⟨hb, hl⟩ | ⟨hb, hl⟩)
    · rcases hopp with ⟨hsig, hq⟩ | ⟨hsig, hq⟩
      · exact absurd (of_decide_eq_true hl) (not_lt.mpr hq.le)
      · rw [hsig] at hb; cases hb
    · rcases hopp with ⟨hsig, hq⟩ | ⟨hsig, hq⟩
      · rw [hsig] at hb; cases hb
      · exact hl (decide_eq_true hq)
  have hmain : (processSignalTrade env mpv signal).1 =
      [⟨signal.ticker,
        (if 0 < pyInt p.qty then TradeAction.sell else TradeAction.buy),
        |pyInt p.qty|⟩,
       ⟨signal.ticker,
        (if signal.signal = Direction.bullish then TradeAction.buy else TradeAction.sell),
        pyInt (mpv * signal.positionMultiplier / price)⟩] := by
    simp only [processSignalTrade, if_neg hconf, hval, Bool.not_true,
      Bool.false_eq_true, if_false, hskip, hfind, hprice, if_neg hpz,
      if_neg (by push_neg; exact ⟨hshares, not_lt.mp hmin⟩ :
        ¬ (pyInt (mpv * signal.positionMultiplier / price) ≤ 0 ∨
           (pyInt (mpv * signal.positionMultiplier / price) : ℚ) * price < 1)),
      if_neg hsame]
    rw [executeTradeS_intents env signal.ticker _ _ habs,
      executeTradeS_intents env signal.ticker _ _ hshares]
    rcases hopp with ⟨hsig, hq⟩ | ⟨hsig, hq⟩
    · rw [hsig]
      rw [if_neg (show ¬ (decide (pyInt p.qty > 0) = true) by
          simp [not_lt.mpr hq.le]),
        if_neg (not_lt.mpr hq.le), if_pos rfl]
      rfl
    · rw [hsig]
      rw [if_pos (decide_eq_true hq), if_pos hq,
        if_neg (show ¬ (Direction.bearish = Direction.bullish) by
          intro h; cases h)]
      rfl
  exact ⟨hmain, by rw [hmain]; rfl⟩

/-- Environment for the C6 witness: a short position of 10 shares in NVDA,
price 50, everything tradable translated into a happy-path brokerage. -/
def flipEnv : StratEnv :=
  ⟨fun _ => true, fun _ => false, [⟨"NVDA", -10⟩], fun _ => some 50,
   fun _ => .ok (some ⟨7⟩), fun _ => .ok (some ⟨7, "filled", some 50, some 10⟩)⟩

/-- A BULLISH decision for NVDA, opposite to the short position. -/
def flipSig : BestSignal := ⟨"NVDA", .bullish, 3/4, 1, [], 1⟩

/-- `pyInt` of the witness target share computation: 600 / 50 = 12. -/
theorem flip_pyInt_target : pyInt ((600:ℚ) * flipSig.positionMultiplier / 50) = 12 := by
  rw [show ((600:ℚ) * flipSig.positionMultiplier / 50) = ((12:ℤ):ℚ) by
    norm_num [flipSig]]
  rw [pyInt, if_pos (by norm_num), Int.floor_intCast]

/-- `pyInt` of the witness existing quantity: −10. -/
theorem flip_pyInt_qty : pyInt ((-10:ℚ)) = -10 := by
  rw [show ((-10:ℚ)) = ((-10:ℤ):ℚ) by norm_num]
  rw [pyInt, if_neg (by norm_num), Int.ceil_intCast]

/-- Witness for C6: flipping a short of 10 NVDA to a long target of 12
submits exactly the two intents BUY 10 (close) then BUY 12 (open), with
equal-direction share counts never netted. -/
theorem C6_witness :
    (processSignalTrade flipEnv 600 flipSig).1 =
      [⟨"NVDA", .buy, 10⟩, ⟨"NVDA", .buy, 12⟩] := by
  obtain ⟨h, -⟩ := C6_flip_two_intents flipEnv 600 flipSig ⟨"NVDA", -10⟩ 50
    (by norm_num [flipSig])
    rfl rfl
    (by simp [flipEnv, flipSig])
    rfl
    (by norm_num)
    (by rw [flip_pyInt_target]; norm_num)
    (by rw [flip_pyInt_target]; norm_num)
    (Or.inl ⟨rfl, by rw [show (⟨"NVDA", -10⟩ : StratPosition).qty = (-10:ℚ) from rfl,
      flip_pyInt_qty]; norm_num⟩)
  rw [h]
  rw [show (⟨"NVDA", -10⟩ : StratPosition).qty = (-10:ℚ) from rfl,
    flip_pyInt_qty, flip_pyInt_target]
  norm_num [flipSig]

/-- A position on which one of the `float(...)` attribute conversions of
`_check_position_exit_conditions` raises. -/
def malformed (pos : Position) : Prop :=
  pos.qty = none ∨ pos.costBasis = none ∨ pos.currentPrice = none ∨
    pos.unrealizedPl = none ∨ pos.unrealizedPlpc = none

/-- A malformed position makes `_check_position_exit_conditions` return an
empty reason list with the trailing state untouched (the conversions all
precede the first reason append, so the caught exception leaves
`exit_reasons == []`). -/
theorem checkPositionExitConditions_malformed (cfg : ExitConfig)
    (env : ExitEnv) (stops : TrailingStops) (pos : Position)
    (h : malformed pos) :
    checkPositionExitConditions cfg env stops pos = (stops, []) := by
  unfold checkPositionExitConditions checkPositionExitBody
  rcases h with h | h | h | h | h <;>
    cases hq : pos.qty <;> cases hc : pos.costBasis <;>
    cases hcp : pos.currentPrice <;> cases hpl : pos.unrealizedPl <;>
    cases hpp : pos.unrealizedPlpc <;>
    simp_all [floatOf, Except.bind, bind]

/-- When `submit_order` raises for an intent, `_execute_trade` returns
`None` instead of propagating. -/
theorem executeTradeS_submit_error (env : StratEnv) (t : String)
    (a : TradeAction) (q : ℤ)
    (h : env.submitOrder ⟨t, a, q⟩ = .error ()) :
    (executeTradeS env t a q).2 = none := by
  unfold executeTradeS
  split
  · rfl
  · rw [h]

/-- When every `submit_order` call for the signal's ticker raises, the
per-signal body of `execute_trades` appends no trade for that signal. -/
theorem processSignalTrade_submit_error (env : StratEnv) (mpv : ℚ)
    (signal : BestSignal)
    (hsub : ∀ intent : OrderIntent, intent.symbol = signal.ticker →
      env.submitOrder intent = .error ()) :
    (processSignalTrade env mpv signal).2 = none := by
  have hex : ∀ a q, (executeTradeS env signal.ticker a q).2 = none :=
    fun a q => executeTradeS_submit_error env signal.ticker a q
      (hsub ⟨signal.ticker, a, q⟩ rfl)
  simp only [processSignalTrade]
  repeat' split
  all_goals first | rfl | apply hex

/-- The executed-trades loop distributes over list append (no state crosses
loop iterations). -/
theorem executeTradesLoop_append (env : StratEnv) (mpv : ℚ)
    (l₁ l₂ : List BestSignal) :
    executeTradesLoop env mpv (l₁ ++ l₂) =
      executeTradesLoop env mpv l₁ ++ executeTradesLoop env mpv l₂ := by
  induction l₁ with
  | nil => simp [executeTradesLoop]
  | cons s t ih =>
    simp only [List.cons_append, executeTradesLoop]
    cases (processSignalTrade env mpv s).2 <;> simp [ih]

/-- C9.  Per-item error isolation.  (1) A position whose attribute
conversions raise contributes nothing and does not stop the exit-check
loop: the loop over `ps₁ ++ bad :: ps₂` produces exactly the entries of
`ps₁` followed by those of `ps₂`, with the trailing state threaded past the
bad position unchanged.  (2) A signal whose order submissions raise
produces no trade (`_execute_trade` returns `None`), and the trade loop
over `s₁ ++ bad :: s₂` produces exactly the trades of `s₁` followed by
those of `s₂`. -/
theorem C9_error_isolation :
    (∀ (cfg : ExitConfig) (env : ExitEnv) (stops : TrailingStops)
        (ps₁ ps₂ : List Position) (bad : Position), malformed bad →
        checkExitLoop cfg env stops (ps₁ ++ bad :: ps₂) =
          ((checkExitLoop cfg env (checkExitLoop cfg env stops ps₁).1 ps₂).1,
            (checkExitLoop cfg env stops ps₁).2 ++
              (checkExitLoop cfg env (checkExitLoop cfg env stops ps₁).1 ps₂).2)) ∧
    (∀ (env : StratEnv) (mpv : ℚ) (s₁ s₂ : List BestSignal)
        (bad : BestSignal),
        (∀ intent : OrderIntent, intent.symbol = bad.ticker →
          env.submitOrder intent = .error ()) →
        (processSignalTrade env mpv bad).2 = none ∧
        executeTradesLoop env mpv (s₁ ++ bad :: s₂) =
          executeTradesLoop env mpv s₁ ++ executeTradesLoop env mpv s₂) := by
  constructor
  · intro cfg env stops ps₁ ps₂ bad hbad
    induction ps₁ generalizing stops with
    | nil =>
      simp only [List.nil_append, checkExitLoop,
        checkPositionExitConditions_malformed cfg env stops bad hbad,
        List.isEmpty_nil, if_true, List.nil_append]
    | cons p t ih =>
      simp only [List.cons_append, checkExitLoop, List.append_eq]
      rw [ih]
      simp [List.append_assoc]
  · intro env mpv s₁ s₂ bad hsub
    have hnone := processSignalTrade_submit_error env mpv bad hsub
    refine ⟨hnone, ?_⟩
    rw [executeTradesLoop_append]
    congr 1
    simp only [executeTradesLoop, hnone]

/-- Concrete environment for the C9 witness: every submission for ticker
BAD raises. -/
def failEnv : StratEnv :=
  ⟨fun _ => true, fun _ => false, [], fun _ => some 10,
   fun intent => if intent.symbol = "BAD" then .error () else .ok (some ⟨1⟩),
   fun _ => .ok (some ⟨1, "filled", some 10, some 3⟩)⟩

/-- A decision for the failing ticker. -/
def badSig : BestSignal := ⟨"BAD", .bullish, 1, 1, [], 1⟩

/-- A decision for a healthy ticker. -/
def goodSig : BestSignal := ⟨"OK", .bullish, 1, 1, [], 1⟩

/-- A position none of whose attributes parse. -/
def badPos : Position := ⟨"BAD", none, none, none, none, none⟩

/-- Witness for C9: a malformed position in the middle of the exit loop and
a raising ticker in the middle of the trade loop are both skipped while the
loops continue over the surrounding items. -/
theorem C9_witness :
    (checkExitLoop { } ⟨fun _ => .ok [], 0⟩ (fun _ => none)
        ([] ++ badPos :: []) =
      ((checkExitLoop { } ⟨fun _ => .ok [], 0⟩
          (checkExitLoop { } ⟨fun _ => .ok [], 0⟩ (fun _ => none) []).1 []).1,
        (checkExitLoop { } ⟨fun _ => .ok [], 0⟩ (fun _ => none) []).2 ++
          (checkExitLoop { } ⟨fun _ => .ok [], 0⟩
            (checkExitLoop { } ⟨fun _ => .ok [], 0⟩ (fun _ => none) []).1 []).2)) ∧
    ((processSignalTrade failEnv 100 badSig).2 = none ∧
      executeTradesLoop failEnv 100 ([goodSig] ++ badSig :: [goodSig]) =
        executeTradesLoop failEnv 100 [goodSig] ++
          executeTradesLoop failEnv 100 [goodSig]) :=
  ⟨C9_error_isolation.1 { } ⟨fun _ => .ok [], 0⟩ (fun _ => none) [] [] badPos
      (Or.inl rfl),
   C9_error_isolation.2 failEnv 100 [goodSig] [goodSig] badSig
      (fun intent hi => by simp [failEnv, hi, badSig])⟩

/-- `_check_trailing_stop` only ever reports a trailing-stop reason. -/
theorem checkTrailingStop_snd_no_timeBased (cfg : ExitConfig)
    (stops : TrailingStops) (symbol : String) (price pl : ℚ) (isLong : Bool)
    (d : ℤ) :
    ExitReason.timeBased d ∉
      ((checkTrailingStop cfg stops symbol price pl isLong).2).toList := by
  unfold checkTrailingStop
  cases h : stops symbol with
  | none => simp
  | some td =>
    cases isLong with
    | true =>
      cases hh : td.highestPrice with
      | none => simp [hh]
      | some hp =>
        simp only [hh, if_true]
        split_ifs <;> simp
    | false =>
      cases hlo : td.lowestPrice with
      | none => simp [hlo]
      | some lo =>
        simp only [hlo, Bool.false_eq_true, if_false]
        split_ifs <;> simp

/-- Shape of the reason list of `_check_position_exit_conditions` on a
well-formed position: the four rules contribute in source order. -/
theorem checkPositionExitConditions_reasons (cfg : ExitConfig)
    (env : ExitEnv) (stops : TrailingStops) (pos : Position)
    (q cb cp pl plpcRaw : ℚ)
    (hq : pos.qty = some q) (hcb : pos.costBasis = some cb)
    (hcp : pos.currentPrice = some cp) (hpl : pos.unrealizedPl = some pl)
    (hpp : pos.unrealizedPlpc = some plpcRaw) :
    (checkPositionExitConditions cfg env stops pos).2 =
      (if cfg.useStopLoss ∧ plpcRaw * 100 ≤ cfg.stopLossPercent
       then [ExitReason.stopLoss (plpcRaw * 100)] else []) ++
      (if cfg.useTakeProfit ∧ plpcRaw * 100 ≥ cfg.takeProfitPercent
       then [ExitReason.takeProfit (plpcRaw * 100)] else []) ++
      (if cfg.useTimeBasedExit ∧ cfg.maxHoldDays > 0 then
         (if estimatePositionAge (env.orders pos.symbol) env.now ≥ cfg.maxHoldDays
          then [ExitReason.timeBased
            (estimatePositionAge (env.orders pos.symbol) env.now)] else [])
       else []) ++
      (if cfg.useTrailingStop
       then (checkTrailingStop cfg stops pos.symbol cp (plpcRaw * 100)
         (decide (q > 0))).2.toList
       else []) := by
  unfold checkPositionExitConditions checkPositionExitBody
  rw [hq, hcb, hcp, hpl, hpp]
  simp only [floatOf, bind, Except.bind, pure, Except.pure]
  split_ifs <;> simp

/-- A short position (signed quantity −10) at P&L +5%. -/
def shortPos : Position := ⟨"SHRT", some (-10), some 1000, some 90, some 100, some (1/20)⟩

/-- Exit environment refuting C10: the symbol's recent filled orders
contain a BUY (e.g. an earlier partial cover of a short), created 40 days
ago. -/
def coverEnv : ExitEnv := ⟨fun _ => .ok [⟨OrderSide.buy, -40⟩], 0⟩

/-- Counterexample to C10: for a short position whose order history holds a
filled buy-side order 40 days old, the estimated age is 40 — not 0 — and
the time-based exit fires against the default 30-day maximum. -/
theorem C10_counterexample :
    shortPos.qty = some (-10) ∧ (-10 : ℚ) < 0 ∧
    estimatePositionAge (coverEnv.orders shortPos.symbol) coverEnv.now = 40 ∧
    (checkPositionExitConditions { } coverEnv (fun _ => none) shortPos).2 =
      [ExitReason.timeBased 40] := by
  have hage : estimatePositionAge (coverEnv.orders shortPos.symbol) coverEnv.now = 40 := by
    norm_num +decide [estimatePositionAge, coverEnv, shortPos, createdDesc,
      List.mergeSort]
  refine ⟨rfl, by norm_num, hage, ?_⟩
  rw [checkPositionExitConditions_reasons { } coverEnv (fun _ => none) shortPos
    (-10) 1000 90 100 (1/20) rfl rfl rfl rfl rfl, hage]
  norm_num

/-- C10 as amended.  The holding age is estimated solely from the most
recent filled BUY order: when the symbol's recent filled orders contain no
buy-side order (in particular, for a short position that was opened by a
sell and never partially covered), the age defaults to 0 and the time-based
exit can never fire against a positive `max_hold_days`.  When a buy order
IS present (e.g. a past cover), the age can be positive and the rule can
fire, as the counterexample shows. -/
theorem C10_short_no_buy_amended (cfg : ExitConfig) (env : ExitEnv)
    (stops : TrailingStops) (pos : Position)
    (hnobuy : ∀ orders, env.orders pos.symbol = .ok orders →
      ∀ o ∈ orders, o.side ≠ OrderSide.buy)
    (hhold : 0 < cfg.maxHoldDays) :
    estimatePositionAge (env.orders pos.symbol) env.now = 0 ∧
    ∀ d, ExitReason.timeBased d ∉
      (checkPositionExitConditions cfg env stops pos).2 := by
  have hage : estimatePositionAge (env.orders pos.symbol) env.now = 0 := by
    cases horders : env.orders pos.symbol with
    | error e => simp [estimatePositionAge]
    | ok orders =>
      simp only [estimatePositionAge]
      by_cases he : orders.isEmpty
      · simp [he]
      · have hfil : orders.filter (fun o => decide (o.side = OrderSide.buy)) = [] := by
          rw [List.filter_eq_nil_iff]
          intro o ho
          simpa using hnobuy orders horders o ho
        simp [he, hfil]
  refine ⟨hage, ?_⟩
  intro d
  by_cases hm : malformed pos
  · rw [checkPositionExitConditions_malformed cfg env stops pos hm]
    simp
  · have hq : ∃ q, pos.qty = some q := by
      cases h : pos.qty with
      | none => exact absurd (Or.inl h) hm
      | some q => exact ⟨q, rfl⟩
    have hcb : ∃ v, pos.costBasis = some v := by
      cases h : pos.costBasis with
      | none => exact absurd (Or.inr (Or.inl h)) hm
      | some v => exact ⟨v, rfl⟩
    have hcp : ∃ v, pos.currentPrice = some v := by
      cases h : pos.currentPrice with
      | none => exact absurd (Or.inr (Or.inr (Or.inl h))) hm
      | some v => exact ⟨v, rfl⟩
    have hpl : ∃ v, pos.unrealizedPl = some v := by
      cases h : pos.unrealizedPl with
      | none => exact absurd (Or.inr (Or.inr (Or.inr (Or.inl h)))) hm
      | some v => exact ⟨v, rfl⟩
    have hpp : ∃ v, pos.unrealizedPlpc = some v := by
      cases h : pos.unrealizedPlpc with
      | none => exact absurd (Or.inr (Or.inr (Or.inr (Or.inr h)))) hm
      | some v => exact ⟨v, rfl⟩
    obtain ⟨q, hq⟩ := hq
    obtain ⟨cb, hcb⟩ := hcb
    obtain ⟨cp, hcp⟩ := hcp
    obtain ⟨pl, hpl⟩ := hpl
    obtain ⟨plpcRaw, hpp⟩ := hpp
    rw [checkPositionExitConditions_reasons cfg env stops pos q cb cp pl plpcRaw
      hq hcb hcp hpl hpp, hage]
    have htime : (if cfg.useTimeBasedExit ∧ cfg.maxHoldDays > 0 then
        (if (0:ℤ) ≥ cfg.maxHoldDays then [ExitReason.timeBased (0:ℤ)] else [])
        else []) = ([] : List ExitReason) := by
      split_ifs with h1 h2
      · exact absurd h2 (not_le.mpr hhold)
      · rfl
      · rfl
    rw [htime]
    simp only [List.append_nil, List.mem_append]
    rintro ((hmem1 | hmem1) | hmem)
    · revert hmem1
      split_ifs <;> simp
    · revert hmem1
      split_ifs <;> simp
    · revert hmem
      split_ifs with ht
      · exact checkTrailingStop_snd_no_timeBased cfg stops pos.symbol cp
          (plpcRaw * 100) (decide (0 < q)) d
      · simp

/-- Witness for C10 (amended): a short position whose order history holds
only a SELL order gets estimated age 0 and no time-based exit reason. -/
theorem C10_witness :
    estimatePositionAge
      ((⟨fun _ => .ok [⟨OrderSide.sell, -40⟩], 0⟩ : ExitEnv).orders
        shortPos.symbol) (0:ℤ) = 0 ∧
    ∀ d, ExitReason.timeBased d ∉
      (checkPositionExitConditions { } ⟨fun _ => .ok [⟨OrderSide.sell, -40⟩], 0⟩
        (fun _ => none) shortPos).2 :=
  C10_short_no_buy_amended { } ⟨fun _ => .ok [⟨OrderSide.sell, -40⟩], 0⟩
    (fun _ => none) shortPos
    (fun orders ho o hm => by
      injection ho with ho
      subst ho
      rcases List.mem_singleton.mp hm with rfl
      simp)
    (by norm_num)

/-! ## Option contract selection
(`AlpacaWrapper.find_option_contract` and the sizing step of
`InverseStrategy.execute_option_trades`) -/

/-- Option right (`'call'` / `'put'`). -/
inductive OptRight where
  | call
  | put
deriving DecidableEq, Repr

/-- One quote of an option chain as read by `find_option_contract`. -/
structure OptionQuote where
  symbol : String
  strike : ℚ
  delta : ℚ
  bid : ℚ
  ask : ℚ
deriving DecidableEq, Repr

/-- An option chain for one expiration (`get_option_chain` result). -/
structure OptionChain where
  calls : List OptionQuote
  puts : List OptionQuote
  underlyingPrice : ℚ
deriving DecidableEq, Repr

/-- The contract dict returned by `find_option_contract` on the real
selection path. -/
structure OptionContract where
  symbol : String
  strike : ℚ
  price : ℚ
  delta : ℚ
  expirationDate : ℤ
  daysToExpiry : ℤ
  right : OptRight
  underlyingPrice : ℚ
deriving DecidableEq, Repr

/-- Outcome of `find_option_contract`: a contract from the chain, the
`_get_sample_option_contract` fallback (simulated data, kept abstract), or
`None` (no candidate expirations). -/
inductive FindOutcome where
  | contract (c : OptionContract)
  | sample
  | none
deriving DecidableEq, Repr

/-- The result of the initial `get_asset` tradability check: passed,
failed (`return sample`), or raised (`continue anyway`). -/
inductive AssetCheck where
  | tradable
  | notTradable
  | errored
deriving DecidableEq, Repr

/-- Python `range(lo, hi, step)` for a positive step. -/
def pyRangeStep (lo hi step : ℤ) : List ℤ :=
  (List.range ((Int.fdiv (hi - lo + step - 1) step).toNat)).map
    (fun k => lo + step * (k : ℤ))

/-- The candidate weekly expirations of `find_option_contract`:
`target_date + i` for `i in range(-max_days_range, max_days_range + 1, 7)`,
kept when the date is a Friday strictly after today. -/
def expirationCandidates (today targetDays maxDaysRange : ℤ) : List ℤ :=
  (pyRangeStep (-maxDaysRange) (maxDaysRange + 1) 7).filterMap (fun i =>
    let expDate := today + targetDays + i
    if weekday expDate = 4 ∧ expDate > today then some expDate else none)

/-- `expirations.sort(key=lambda x: abs((x - today).days - days_to_expiry))`:
stable ascending sort by distance to the target day count. -/
def expiryLe (today targetDays : ℤ) (a b : ℤ) : Bool :=
  decide (|a - today - targetDays| ≤ |b - today - targetDays|)

/-- `options_list.sort(key=lambda x: abs(abs(x['delta']) - target_delta_abs))`:
stable ascending sort by delta distance. -/
def deltaLe (targetDeltaAbs : ℚ) (a b : OptionQuote) : Bool :=
  decide (|(|a.delta|) - targetDeltaAbs| ≤ |(|b.delta|) - targetDeltaAbs|)

/-- The `for expiration_date in expirations` loop of
`find_option_contract`: first expiration with a chain and a nonempty
options list wins; within it the delta-nearest quote wins; the price is the
bid/ask midpoint. -/
def findOptionLoop (chain : ℤ → Option OptionChain) (right : OptRight)
    (targetDeltaAbs : ℚ) (today : ℤ) : List ℤ → Option OptionContract
  | [] => Option.none
  | e :: rest =>
    match chain e with
    | Option.none => findOptionLoop chain right targetDeltaAbs today rest
    | some ch =>
      let optionsList := if right = OptRight.call then ch.calls else ch.puts
      if optionsList.isEmpty then findOptionLoop chain right targetDeltaAbs today rest
      else
        match optionsList.mergeSort (deltaLe targetDeltaAbs) with
        | bestMatch :: _ =>
          some ⟨bestMatch.symbol, bestMatch.strike,
            (bestMatch.bid + bestMatch.ask) / 2, bestMatch.delta,
            e, e - today, right, ch.underlyingPrice⟩
        | [] => findOptionLoop chain right targetDeltaAbs today rest

/-- `AlpacaWrapper.find_option_contract`. -/
def findOptionContract (assetCheck : AssetCheck) (today : ℤ)
    (chain : ℤ → Option OptionChain) (targetDelta : ℚ) (right : OptRight)
    (daysToExpiry maxDaysRange : ℤ) : FindOutcome :=
  match assetCheck with
  | .notTradable => .sample
  | _ =>
    let expirations := expirationCandidates today daysToExpiry maxDaysRange
    if expirations.isEmpty then .none
    else
      match findOptionLoop chain right (|targetDelta|)
          today (expirations.mergeSort (expiryLe today daysToExpiry)) with
      | some c => .contract c
      | Option.none => .sample

/-- The inverse-direction right chosen by `execute_option_trades`:
`'put' if signal_direction == 'BULLISH' else 'call'`. -/
def optionRight (d : Direction) : OptRight :=
  if d = Direction.bullish then OptRight.put else OptRight.call

/-- The contract count of `execute_option_trades`:
`int(position_value / (contract_price * 100))`, raised to 1 when below 1
(applied only after the `contract_price <= 0` guard). -/
def optionContractCount (positionValue contractPrice : ℚ) : ℤ :=
  let numContracts := pyInt (positionValue / (contractPrice * 100))
  if numContracts < 1 then 1 else numContracts

/-- `deltaLe` is transitive. -/
theorem deltaLe_trans (t : ℚ) : ∀ a b c, deltaLe t a b → deltaLe t b c → deltaLe t a c := by
  intro a b c hab hbc
  simp only [deltaLe, decide_eq_true_eq] at *
  exact le_trans hab hbc

/-- `deltaLe` is total. -/
theorem deltaLe_total (t : ℚ) : ∀ a b, deltaLe t a b || deltaLe t b a := by
  intro a b
  simp only [deltaLe, Bool.or_eq_true, decide_eq_true_eq]
  exact le_total _ _

/-- `expiryLe` is transitive. -/
theorem expiryLe_trans (td tg : ℤ) :
    ∀ a b c, expiryLe td tg a b → expiryLe td tg b c → expiryLe td tg a c := by
  intro a b c hab hbc
  simp only [expiryLe, decide_eq_true_eq] at *
  exact le_trans hab hbc

/-- `expiryLe` is total. -/
theorem expiryLe_total (td tg : ℤ) : ∀ a b, expiryLe td tg a b || expiryLe td tg b a := by
  intro a b
  simp only [expiryLe, Bool.or_eq_true, decide_eq_true_eq]
  exact le_total _ _

/-- Characterisation of the expiration loop: a returned contract comes from
the first usable expiration in the list (every earlier one has no chain or
an empty options list), carries the chain's data, and its quote minimises
the delta distance within that expiration's options list. -/
theorem findOptionLoop_spec (chain : ℤ → Option OptionChain)
    (right : OptRight) (tAbs : ℚ) (today : ℤ) :
    ∀ (l : List ℤ) (c : OptionContract),
      findOptionLoop chain right tAbs today l = some c →
      ∃ l₁ l₂, l = l₁ ++ c.expirationDate :: l₂ ∧
        (∀ e ∈ l₁, chain e = Option.none ∨ ∃ ch, chain e = some ch ∧
          (if right = OptRight.call then ch.calls else ch.puts).isEmpty) ∧
        ∃ ch, chain c.expirationDate = some ch ∧
          c.underlyingPrice = ch.underlyingPrice ∧ c.right = right ∧
          c.daysToExpiry = c.expirationDate - today ∧
          ∃ q ∈ (if right = OptRight.call then ch.calls else ch.puts),
            c.symbol = q.symbol ∧ c.strike = q.strike ∧ c.delta = q.delta ∧
            c.price = (q.bid + q.ask) / 2 ∧
            ∀ q2 ∈ (if right = OptRight.call then ch.calls else ch.puts),
              |(|q.delta|) - tAbs| ≤ |(|q2.delta|) - tAbs| := by
  intro l
  induction l with
  | nil => intro c hc; cases hc
  | cons e rest ih =>
    intro c hc
    rw [findOptionLoop] at hc
    cases hch : chain e with
    | none =>
      rw [hch] at hc
      obtain ⟨l₁, l₂, hsplit, hunus, hrest⟩ := ih c hc
      exact ⟨e :: l₁, l₂, by rw [hsplit]; rfl,
        fun x hx => by
          rcases List.mem_cons.mp hx with rfl | hx
          · exact Or.inl hch
          · exact hunus x hx,
        hrest⟩
    | some ch =>
      rw [hch] at hc
      simp only at hc
      by_cases hemp : (if right = OptRight.call then ch.calls else ch.puts).isEmpty
      · rw [if_pos hemp] at hc
        obtain ⟨l₁, l₂, hsplit, hunus, hrest⟩ := ih c hc
        exact ⟨e :: l₁, l₂, by rw [hsplit]; rfl,
          fun x hx => by
            rcases List.mem_cons.mp hx with rfl | hx
            · exact Or.inr ⟨ch, hch, hemp⟩
            · exact hunus x hx,
          hrest⟩
      · rw [if_neg hemp] at hc
        cases hms : (if right = OptRight.call then ch.calls else ch.puts).mergeSort
            (deltaLe tAbs) with
        | nil =>
          exfalso
          apply hemp
          have := congrArg List.length hms
          rw [List.length_mergeSort] at this
          simpa [List.isEmpty_iff_length_eq_zero] using this
        | cons best tail =>
          rw [hms] at hc
          have hcval : c = ⟨best.symbol, best.strike, (best.bid + best.ask) / 2,
              best.delta, e, e - today, right, ch.underlyingPrice⟩ := by
            injection hc with h
            exact h.symm
          obtain ⟨hmem, hmin⟩ :=
            head_mergeSort_max (deltaLe_trans tAbs) (deltaLe_total tAbs) hms
          subst hcval
          refine ⟨[], rest, rfl, by simp, ch, hch, rfl, rfl, rfl,
            best, hmem, rfl, rfl, rfl, rfl, ?_⟩
          intro q2 hq2
          have := hmin q2 hq2
          simpa [deltaLe] using this

/-- The option chains of the C8 counterexample: the expiry nearest the
target day count (day 29) only offers a put at delta −0.35, while a
farther in-range weekly expiry (day 36) offers a put at exactly the target
delta −0.20. -/
def cexChain : ℤ → Option OptionChain := fun e =>
  if e = 29 then some ⟨[], [⟨"P29", 90, -7/20, 1, 2⟩], 100⟩
  else if e = 36 then some ⟨[], [⟨"P36", 80, -1/5, 1, 2⟩], 100⟩
  else Option.none

/-- The candidate expirations for today 0, target 30 days, range 15. -/
theorem cex_candidates : expirationCandidates 0 30 15 = [15, 22, 29, 36, 43] := by
  decide

/-- Their stable sort by distance to the 30-day target. -/
theorem cex_sorted :
    ([15, 22, 29, 36, 43] : List ℤ).mergeSort (expiryLe 0 30) =
      [29, 36, 22, 43, 15] := by
  norm_num +decide [List.mergeSort, expiryLe]

/-- Counterexample to C8: the selector returns the day-29 put at delta
−0.35 (delta distance 0.15) although the in-range weekly expiry at day 36
offers delta −0.20 (distance 0): expiry-nearness is ranked above
delta-nearness, so ties are NOT broken by nearest delta first. -/
theorem C8_counterexample :
    findOptionContract AssetCheck.tradable 0 cexChain (1/5) OptRight.put 30 15 =
      FindOutcome.contract ⟨"P29", 90, 3/2, -7/20, 29, 29, OptRight.put, 100⟩ ∧
    (36:ℤ) ∈ expirationCandidates 0 30 15 ∧
    cexChain 36 = some ⟨[], [⟨"P36", 80, -1/5, 1, 2⟩], 100⟩ ∧
    |(|(-1/5 : ℚ)|) - 1/5| < |(|(-7/20 : ℚ)|) - 1/5| := by
  refine ⟨?_, by decide, rfl, by
    rw [show |(-1/5 : ℚ)| = 1/5 by norm_num, show |(-7/20 : ℚ)| = 7/20 by norm_num]
    rw [show ((1:ℚ)/5 - 1/5) = 0 by norm_num, abs_zero]
    rw [show ((7:ℚ)/20 - 1/5) = 3/20 by norm_num,
      abs_of_nonneg (by norm_num : (0:ℚ) ≤ 3/20)]
    norm_num⟩
  norm_num +decide [findOptionContract, cex_candidates, cex_sorted,
    findOptionLoop, cexChain, List.mergeSort]

/-- C8 as amended.  For a BULLISH (resp. BEARISH) decision the overlay buys
a put (resp. call).  A returned contract comes from a weekly in-range
candidate expiration; candidate expirations are tried nearest-to-target
FIRST, and only within the first expiration holding a nonempty chain is the
delta-nearest quote chosen (mid bid/ask price) — any strictly
nearer-to-target candidate expiration has no chain or an empty list, so
global delta-nearness does NOT override expiry order.  The contract count
is `floor(position_notional / (mid_price * 100))` raised to a minimum of
1. -/
theorem C8_option_selection_amended (assetCheck : AssetCheck) (today : ℤ)
    (chain : ℤ → Option OptionChain) (targetDelta : ℚ) (d : Direction)
    (daysToExpiry maxDaysRange : ℤ) (c : OptionContract)
    (hac : assetCheck ≠ AssetCheck.notTradable)
    (hfind : findOptionContract assetCheck today chain targetDelta
      (optionRight d) daysToExpiry maxDaysRange = FindOutcome.contract c) :
    (d = Direction.bullish → optionRight d = OptRight.put) ∧
    (d ≠ Direction.bullish → optionRight d = OptRight.call) ∧
    c.right = optionRight d ∧
    c.expirationDate ∈ expirationCandidates today daysToExpiry maxDaysRange ∧
    c.daysToExpiry = c.expirationDate - today ∧
    (∃ ch, chain c.expirationDate = some ch ∧
      ∃ q ∈ (if optionRight d = OptRight.call then ch.calls else ch.puts),
        c.delta = q.delta ∧ c.price = (q.bid + q.ask) / 2 ∧
        ∀ q2 ∈ (if optionRight d = OptRight.call then ch.calls else ch.puts),
          |(|q.delta|) - (|targetDelta|)| ≤ |(|q2.delta|) - (|targetDelta|)|) ∧
    (∀ e ∈ expirationCandidates today daysToExpiry maxDaysRange,
      |e - today - daysToExpiry| < |c.expirationDate - today - daysToExpiry| →
      chain e = Option.none ∨ ∃ ch, chain e = some ch ∧
        (if optionRight d = OptRight.call then ch.calls else ch.puts).isEmpty) ∧
    (∀ pv price : ℚ, 0 ≤ pv → 0 < price →
      optionContractCount pv price = max 1 ⌊pv / (price * 100)⌋) := by
  have hloop : ∃ sorted, sorted = (expirationCandidates today daysToExpiry
      maxDaysRange).mergeSort (expiryLe today daysToExpiry) ∧
      findOptionLoop chain (optionRight d) (|targetDelta|) today sorted = some c := by
    cases assetCheck with
    | notTradable => exact absurd rfl hac
    | tradable =>
      rw [findOptionContract] at hfind
      by_cases hemp : (expirationCandidates today daysToExpiry maxDaysRange).isEmpty
      · rw [if_pos hemp] at hfind; cases hfind
      · rw [if_neg hemp] at hfind
        cases hl : findOptionLoop chain (optionRight d) (|targetDelta|) today
            ((expirationCandidates today daysToExpiry maxDaysRange).mergeSort
              (expiryLe today daysToExpiry)) with
        | none => rw [hl] at hfind; cases hfind
        | some c2 =>
          rw [hl] at hfind
          injection hfind with h
          exact ⟨_, rfl, by rw [hl, h]⟩
      exact fun h => AssetCheck.noConfusion h
    | errored =>
      rw [findOptionContract] at hfind
      by_cases hemp : (expirationCandidates today daysToExpiry maxDaysRange).isEmpty
      · rw [if_pos hemp] at hfind; cases hfind
      · rw [if_neg hemp] at hfind
        cases hl : findOptionLoop chain (optionRight d) (|targetDelta|) today
            ((expirationCandidates today daysToExpiry maxDaysRange).mergeSort
              (expiryLe today daysToExpiry)) with
        | none => rw [hl] at hfind; cases hfind
        | some c2 =>
          rw [hl] at hfind
          injection hfind with h
          exact ⟨_, rfl, by rw [hl, h]⟩
      exact fun h => AssetCheck.noConfusion h
  obtain ⟨sorted, hsorted, hl⟩ := hloop
  obtain ⟨l₁, l₂, hsplit, hunus, ch, hch, -, hright, hdays, q, hq, -, -, hdel,
    hpr, hmin⟩ := findOptionLoop_spec chain (optionRight d) (|targetDelta|)
      today sorted c hl
  have hmemsorted : c.expirationDate ∈ sorted := by
    rw [hsplit]
    exact List.mem_append_right l₁ (List.mem_cons_self _ _)
  have hmemcand : c.expirationDate ∈ expirationCandidates today daysToExpiry
      maxDaysRange := by
    rw [hsorted] at hmemsorted
    exact List.mem_mergeSort.mp hmemsorted
  refine ⟨fun hb => by simp [optionRight, hb], fun hb => by simp [optionRight, hb],
    hright, hmemcand, hdays, ⟨ch, hch, q, hq, hdel, hpr, hmin⟩, ?_, ?_⟩
  · intro e hecand helt
    have hesorted : e ∈ sorted := by
      rw [hsorted]
      exact List.mem_mergeSort.mpr hecand
    have hpw : sorted.Pairwise (fun a b => expiryLe today daysToExpiry a b = true) := by
      rw [hsorted]
      exact List.sorted_mergeSort (expiryLe_trans today daysToExpiry)
        (expiryLe_total today daysToExpiry) _
    rw [hsplit] at hesorted hpw
    rcases List.mem_append.mp hesorted with he1 | he2
    · exact hunus e he1
    · exfalso
      rcases List.mem_cons.mp he2 with rfl | he2
      · exact lt_irrefl _ helt
      · rw [List.pairwise_append] at hpw
        have := List.rel_of_pairwise_cons hpw.2.1 he2
        simp only [expiryLe, decide_eq_true_eq] at this
        exact absurd helt (not_lt.mpr this)
  · intro pv price hpv hprice
    have hq0 : (0:ℚ) ≤ pv / (price * 100) := by positivity
    rw [optionContractCount, pyInt, if_pos hq0]
    rcases lt_or_le ⌊pv / (price * 100)⌋ 1 with h | h
    · rw [if_pos h, max_eq_left h.le]
    · rw [if_neg (not_lt.mpr h), max_eq_right h]

/-- Witness for C8 (amended): the theorem applied to the counterexample
chains — the day-29 contract is delta-minimal within its own expiration,
every strictly closer candidate expiration (none) is unusable, and the
contract count formula holds, e.g. at notional 1000 and price 1.5. -/
theorem C8_witness :
    optionRight Direction.bullish = OptRight.put ∧
    (⟨"P29", 90, 3/2, -7/20, (29:ℤ), (29:ℤ), OptRight.put, 100⟩ :
      OptionContract).expirationDate ∈ expirationCandidates 0 30 15 ∧
    optionContractCount 1000 (3/2) = max 1 ⌊(1000 : ℚ) / (3/2 * 100)⌋ := by
  have hfind : findOptionContract AssetCheck.tradable 0 cexChain (1/5)
      (optionRight Direction.bullish) 30 15 =
      FindOutcome.contract ⟨"P29", 90, 3/2, -7/20, 29, 29, OptRight.put, 100⟩ := by
    norm_num +decide [findOptionContract, cex_candidates, cex_sorted,
      findOptionLoop, cexChain, List.mergeSort, optionRight]
  obtain ⟨h1, -, -, hmem, -, -, -, hcount⟩ :=
    C8_option_selection_amended AssetCheck.tradable 0 cexChain (1/5)
      Direction.bullish 30 15
      ⟨"P29", 90, 3/2, -7/20, 29, 29, OptRight.put, 100⟩
      (by intro h; cases h) hfind
  exact ⟨h1 rfl, hmem, hcount 1000 (3/2) (by norm_num) (by norm_num)⟩

end Alpatrader
